import Mathlib

/-!
Shallow embedding of the music recommendation core (similarity engine,
diversity optimizer, deep-cut engine, tag analysis, user preference weights)
together with theorems settling the specification claims.

Modelling conventions:
* Python floats are modelled as `ℚ` where the code only performs field
  arithmetic, and as `ℝ` where square roots or logarithms occur
  (cosine similarity, standard deviations, log-scale interpolation).
* Django querysets and the cache are external collaborators: a function that
  reads the database takes the relevant table contents as an explicit list
  parameter, and the cache is modelled as a miss (the cached value is always
  the previously computed result, so the cache-hit path returns the same
  value).
* Python `set(...)` over strings is modelled as `List.dedup` /
  `List.toFinset`; iteration order only matters where both sides of a
  comparison use the same order, which the proofs track explicitly.
* Exceptions are modelled by `Option` where the code catches them and
  substitutes a default.
-/

namespace MusicRec

/-- Embeds `music.models_recommendation.SimpleTrackFeatures`: the normalized
numeric features and tag lists attached one-to-one to a track. -/
structure SimpleTrackFeatures where
  energy : ℚ
  valence : ℚ
  tempo_normalized : ℚ
  danceability : ℚ
  acousticness : ℚ
  popularity_score : ℚ
  genre_tags : List String
  mood_tags : List String
deriving DecidableEq

/-- Embeds the fields of `music.models.Track` used by the recommendation
core: identity, artist, play counts and the optional one-to-one
`simple_features` relation (`None` when the track has no feature vector). -/
structure Track where
  id : ℕ
  artist_id : ℕ
  playcount : ℕ
  artist_playcount : ℕ
  simple_features : Option SimpleTrackFeatures
deriving DecidableEq

/-- Validity predicate for `SimpleTrackFeatures`: every numeric attribute lies
in [0,1].  This is the data-model invariant enforced by the Django field
validators (`MinValueValidator(0.0)` / `MaxValueValidator(1.0)`). -/
def FeaturesInRange (f : SimpleTrackFeatures) : Prop :=
  0 ≤ f.energy ∧ f.energy ≤ 1 ∧
  0 ≤ f.valence ∧ f.valence ≤ 1 ∧
  0 ≤ f.tempo_normalized ∧ f.tempo_normalized ≤ 1 ∧
  0 ≤ f.danceability ∧ f.danceability ≤ 1 ∧
  0 ≤ f.acousticness ∧ f.acousticness ≤ 1 ∧
  0 ≤ f.popularity_score ∧ f.popularity_score ≤ 1

/-- Embeds `SimpleTrackFeatures.get_feature_vector`: the 6-dimensional numeric
vector `[energy, valence, tempo_normalized, danceability, acousticness,
popularity_score]`, cast into `ℝ` for the cosine computations. -/
noncomputable def featureVector (f : SimpleTrackFeatures) : Fin 6 → ℝ :=
  ![(f.energy : ℝ), (f.valence : ℝ), (f.tempo_normalized : ℝ),
    (f.danceability : ℝ), (f.acousticness : ℝ), (f.popularity_score : ℝ)]

/-- Embeds `SimpleTrackFeatures.get_all_tags`:
`list(set(genre_tags + mood_tags))`.  CPython set iteration order is modelled
as first-insertion order (`List.dedup`); every property proved below is
insensitive to the particular order chosen, as long as identical inputs give
identical outputs. -/
def get_all_tags (f : SimpleTrackFeatures) : List String :=
  (f.genre_tags ++ f.mood_tags).dedup

namespace TagAnalyzer

/-- Inserting into a Python dict: replaces the value at an existing key in
place, otherwise appends the new binding at the end. -/
def dictInsert (k : String) (v : ℚ) : List (String × ℚ) → List (String × ℚ)
  | [] => [(k, v)]
  | (k', v') :: rest =>
      if k' = k then (k', v) :: rest else (k', v') :: dictInsert k v rest

/-- Lookup in an association list, mirroring Python `dict.__getitem__`. -/
def alookup (k : String) : List (String × ℚ) → Option ℚ
  | [] => none
  | (k', v) :: rest => if k' = k then some v else alookup k rest

/-- Embeds `TagAnalyzer.get_tag_weights`: builds a dict mapping each tag to
`1/(i+1)` where `i` is the tag's position; a duplicate tag keeps its first
position in the dict order but receives the weight of its last occurrence,
exactly as a Python dict would. -/
def get_tag_weights (tags : List String) : List (String × ℚ) :=
  tags.enum.foldl (fun d p => dictInsert p.2 (1 / (p.1 + 1)) d) []

/-- Embeds `TagAnalyzer.jaccard_similarity` over tag lists: 0 when either
list is empty or the union is empty, otherwise `|A∩B| / |A∪B|` over the
underlying sets. -/
def jaccard_similarity (tags1 tags2 : List String) : ℚ :=
  if tags1 = [] ∨ tags2 = [] then 0
  else if tags1.toFinset ∪ tags2.toFinset = ∅ then 0
  else ((tags1.toFinset ∩ tags2.toFinset).card : ℚ) /
    ((tags1.toFinset ∪ tags2.toFinset).card : ℚ)

/-- Propositional filter, mirroring a Python list comprehension guard. -/
def pfilter (P : α → Prop) [DecidablePred P] : List α → List α
  | [] => []
  | x :: xs => if P x then x :: pfilter P xs else pfilter P xs

/-- Embeds `TagAnalyzer.weighted_tag_similarity`: position-weighted overlap of
the two tag lists, the sum over common tags of `min(w1, w2)` normalized by
`min(Σw1, Σw2)`; 0 when either list is empty or there is no common tag. -/
def weighted_tag_similarity (tags1 tags2 : List String) : ℚ :=
  if tags1 = [] ∨ tags2 = [] then 0
  else
    let w1 := get_tag_weights tags1
    let w2 := get_tag_weights tags2
    let common := pfilter (fun p => (alookup p.1 w2).isSome = true) w1
    if common = [] then 0
    else
      let sim := (common.map (fun p => min p.2 ((alookup p.1 w2).getD 0))).sum
      let maxWeight := min (w1.map Prod.snd).sum (w2.map Prod.snd).sum
      if maxWeight = 0 then 0 else sim / maxWeight

end TagAnalyzer

end MusicRec

namespace MusicRec

/-- Embeds `music.models_recommendation.UserRecommendationPreferences`: the
four per-source weights plus the independent diversity and exploration
dials. -/
structure UserRecommendationPreferences where
  content_weight : ℚ
  collaborative_weight : ℚ
  popularity_weight : ℚ
  trending_weight : ℚ
  diversity_factor : ℚ
  exploration_level : ℚ
deriving DecidableEq

namespace UserRecommendationPreferences

/-- Sum of the four source weights. -/
def weightSum (p : UserRecommendationPreferences) : ℚ :=
  p.content_weight + p.collaborative_weight + p.popularity_weight +
    p.trending_weight

/-- Embeds `UserRecommendationPreferences.normalize_weights`: divides each of
the four source weights by their sum, but only when that sum is positive. -/
def normalize_weights (p : UserRecommendationPreferences) :
    UserRecommendationPreferences :=
  let total := p.weightSum
  if 0 < total then
    { p with
      content_weight := p.content_weight / total
      collaborative_weight := p.collaborative_weight / total
      popularity_weight := p.popularity_weight / total
      trending_weight := p.trending_weight / total }
  else p

/-- Embeds `UserRecommendationPreferences.save`: the model's `save` override
calls `normalize_weights` before persisting, so the persisted state is the
normalized record. -/
def save (p : UserRecommendationPreferences) : UserRecommendationPreferences :=
  normalize_weights p

end UserRecommendationPreferences

end MusicRec

namespace MusicRec

open TagAnalyzer

/-- C9 helper: every value stored by `get_tag_weights` is positive. -/
theorem dictInsert_forall_pos {k : String} {v : ℚ} {d : List (String × ℚ)}
    (hv : 0 < v) (hd : ∀ q ∈ d, 0 < q.2) : ∀ q ∈ dictInsert k v d, 0 < q.2 := by
  induction d with
  | nil => simpa [dictInsert] using hv
  | cons hd' tl ih =>
      obtain ⟨k', v'⟩ := hd'
      intro q hq
      simp only [dictInsert] at hq
      split at hq
      · rcases List.mem_cons.1 hq with h | h
        · subst h; exact hv
        · exact hd _ (List.mem_cons_of_mem _ h)
      · rcases List.mem_cons.1 hq with h | h
        · subst h; exact hd _ (List.mem_cons_self _ _)
        · exact ih (fun q hq => hd q (List.mem_cons_of_mem _ hq)) q h

/-- C9 helper: `dictInsert` never produces an empty dict. -/
theorem dictInsert_ne_nil (k : String) (v : ℚ) (d : List (String × ℚ)) :
    dictInsert k v d ≠ [] := by
  cases d with
  | nil => simp [dictInsert]
  | cons hd tl =>
      obtain ⟨k', v'⟩ := hd
      simp only [dictInsert]
      split <;> simp

/-- C9 helper: folding `dictInsert` over any list keeps the dict nonempty. -/
theorem foldl_dictInsert_ne_nil (l : List (ℕ × String)) (d : List (String × ℚ))
    (hd : d ≠ []) :
    l.foldl (fun d p => dictInsert p.2 (1 / (p.1 + 1)) d) d ≠ [] := by
  induction l generalizing d with
  | nil => simpa
  | cons x xs ih => exact ih _ (dictInsert_ne_nil _ _ _)

/-- C9 helper: `get_tag_weights` of a nonempty tag list is nonempty. -/
theorem get_tag_weights_ne_nil {tags : List String} (h : tags ≠ []) :
    get_tag_weights tags ≠ [] := by
  cases tags with
  | nil => exact absurd rfl h
  | cons t ts =>
      simp only [get_tag_weights, List.enum_cons, List.foldl_cons]
      exact foldl_dictInsert_ne_nil _ _ (dictInsert_ne_nil _ _ _)

/-- C9 helper: key membership in a dict after `dictInsert`. -/
theorem mem_keys_dictInsert {a k : String} {v : ℚ} {d : List (String × ℚ)} :
    a ∈ (dictInsert k v d).map Prod.fst ↔ a ∈ d.map Prod.fst ∨ a = k := by
  induction d with
  | nil => simp [dictInsert, eq_comm]
  | cons hd tl ih =>
      obtain ⟨k', v'⟩ := hd
      simp only [dictInsert]
      split_ifs with h
      · subst h
        simp only [List.map_cons, List.mem_cons]
        constructor
        · rintro (h | h)
          · exact Or.inl (Or.inl h)
          · exact Or.inl (Or.inr h)
        · rintro ((h | h) | h)
          · exact Or.inl h
          · exact Or.inr h
          · subst h; exact Or.inl rfl
      · simp only [List.map_cons, List.mem_cons, ih]
        tauto

/-- C9 helper: `dictInsert` preserves distinctness of keys. -/
theorem dictInsert_keys_nodup {k : String} {v : ℚ} {d : List (String × ℚ)}
    (hd : (d.map Prod.fst).Nodup) : ((dictInsert k v d).map Prod.fst).Nodup := by
  induction d with
  | nil => simp [dictInsert]
  | cons hd' tl ih =>
      obtain ⟨k', v'⟩ := hd'
      simp only [List.map_cons, List.nodup_cons] at hd
      simp only [dictInsert]
      split_ifs with h
      · simp only [List.map_cons, List.nodup_cons]
        exact ⟨hd.1, hd.2⟩
      · simp only [List.map_cons, List.nodup_cons]
        refine ⟨?_, ih hd.2⟩
        rw [mem_keys_dictInsert]
        rintro (hmem | hmem)
        · exact hd.1 hmem
        · exact h hmem

/-- C9 helper: the keys of `get_tag_weights` are distinct. -/
theorem get_tag_weights_keys_nodup (tags : List String) :
    ((get_tag_weights tags).map Prod.fst).Nodup := by
  suffices h : ∀ (l : List (ℕ × String)) (d : List (String × ℚ)),
      (d.map Prod.fst).Nodup →
      ((l.foldl (fun d p => dictInsert p.2 (1 / (p.1 + 1)) d) d).map
        Prod.fst).Nodup by
    exact h _ [] (by simp)
  intro l
  induction l with
  | nil => intro d hd; simpa
  | cons x xs ih => intro d hd; exact ih _ (dictInsert_keys_nodup hd)

/-- C9 helper: every weight produced by `get_tag_weights` is positive. -/
theorem get_tag_weights_pos (tags : List String) :
    ∀ q ∈ get_tag_weights tags, 0 < q.2 := by
  suffices h : ∀ (l : List (ℕ × String)) (d : List (String × ℚ)),
      (∀ q ∈ d, 0 < q.2) →
      ∀ q ∈ l.foldl (fun d p => dictInsert p.2 (1 / (p.1 + 1)) d) d, 0 < q.2 by
    exact h _ [] (by simp)
  intro l
  induction l with
  | nil =>
      intro d hd
      simpa using hd
  | cons x xs ih =>
      intro d hd
      refine ih _ (dictInsert_forall_pos ?_ hd)
      positivity

/-- C9 helper: looking up a present key in a key-distinct dict returns the
stored value. -/
theorem alookup_eq_some_of_mem {k : String} {v : ℚ} {d : List (String × ℚ)}
    (hnd : (d.map Prod.fst).Nodup) (hmem : (k, v) ∈ d) :
    alookup k d = some v := by
  induction d with
  | nil => cases hmem
  | cons hd tl ih =>
      obtain ⟨k', v'⟩ := hd
      simp only [List.map_cons, List.nodup_cons] at hnd
      rcases List.mem_cons.1 hmem with h | h
      · obtain ⟨rfl, rfl⟩ := Prod.mk.injEq .. ▸ h
        simp [alookup]
      · have hk : k' ≠ k := by
          rintro rfl
          exact hnd.1 (List.mem_map.2 ⟨(k', v), h, rfl⟩)
        simp only [alookup, if_neg hk]
        exact ih hnd.2 h

/-- C9 helper: `pfilter` keeps a list intact when the predicate holds
everywhere. -/
theorem pfilter_eq_self {P : α → Prop} [DecidablePred P] {l : List α}
    (h : ∀ x ∈ l, P x) : pfilter P l = l := by
  induction l with
  | nil => rfl
  | cons x xs ih =>
      rw [pfilter, if_pos (h x (List.mem_cons_self _ _))]
      exact congrArg _ (ih fun y hy => h y (List.mem_cons_of_mem _ hy))

/-- C9 helper: a nonempty list of positive rationals has positive sum. -/
theorem sum_pos_of_pos {l : List ℚ} (hne : l ≠ []) (h : ∀ x ∈ l, 0 < x) :
    0 < l.sum := by
  induction l with
  | nil => exact absurd rfl hne
  | cons x xs ih =>
      rw [List.sum_cons]
      rcases List.eq_nil_or_concat xs with rfl | _
      · simpa using h x (List.mem_cons_self _ _)
      · have hx : 0 < x := h x (List.mem_cons_self _ _)
        have hxs : 0 ≤ xs.sum :=
          List.sum_nonneg fun y hy => (h y (List.mem_cons_of_mem _ hy)).le
        linarith

/-- C3 helper: the position-weighted tag similarity of a nonempty tag list
with itself is exactly 1. -/
theorem weighted_tag_similarity_self {tags : List String} (h : tags ≠ []) :
    weighted_tag_similarity tags tags = 1 := by
  have hw := get_tag_weights_ne_nil h
  have hnd := get_tag_weights_keys_nodup tags
  have hpos := get_tag_weights_pos tags
  have hself : ∀ p ∈ get_tag_weights tags,
      alookup p.1 (get_tag_weights tags) = some p.2 := by
    intro p hp
    exact alookup_eq_some_of_mem hnd (by simpa using hp)
  rw [weighted_tag_similarity, if_neg (by simp [h])]
  simp only
  rw [pfilter_eq_self (fun p hp => by rw [hself p hp]; rfl)]
  rw [if_neg hw]
  have hmap : (get_tag_weights tags).map
      (fun p => min p.2 ((alookup p.1 (get_tag_weights tags)).getD 0)) =
      (get_tag_weights tags).map Prod.snd := by
    refine List.map_congr_left fun p hp => ?_
    rw [hself p hp]
    simp
  rw [hmap, min_self]
  have hsum : 0 < ((get_tag_weights tags).map Prod.snd).sum := by
    refine sum_pos_of_pos (by simpa using hw) ?_
    intro x hx
    obtain ⟨p, hp, rfl⟩ := List.mem_map.1 hx
    exact hpos p hp
  rw [if_neg (ne_of_gt hsum)]
  exact div_self (ne_of_gt hsum)

/-- C9: for every non-empty tag set A, `jaccard(A,A)` equals 1.0; and for
every pair of tag sets A,B that are disjoint or of which either is empty,
`jaccard(A,B)` equals 0. -/
theorem C9_jaccard_self_and_disjoint (A B : List String) :
    (A ≠ [] → jaccard_similarity A A = 1) ∧
    ((Disjoint A.toFinset B.toFinset ∨ A = [] ∨ B = []) →
      jaccard_similarity A B = 0) := by
  constructor
  · intro hA
    rw [jaccard_similarity, if_neg (by simp [hA])]
    simp only [Finset.union_self, Finset.inter_self]
    rw [if_neg (by simpa using hA)]
    have hcard : (A.toFinset.card : ℚ) ≠ 0 := by
      simp only [ne_eq, Nat.cast_eq_zero, Finset.card_eq_zero]
      simpa using hA
    exact div_self hcard
  · rintro (hdisj | hA | hB)
    · rw [Finset.disjoint_iff_inter_eq_empty] at hdisj
      rw [jaccard_similarity]
      split_ifs
      · rfl
      · rfl
      · simp [hdisj]
    · simp [jaccard_similarity, hA]
    · simp [jaccard_similarity, hB]

/-- C9 witness: concrete evaluation of both parts of the claim, obtained by
applying `C9_jaccard_self_and_disjoint` at explicit tag lists. -/
theorem C9_jaccard_witness :
    ((["rock"] : List String) ≠ [] ∧ jaccard_similarity ["rock"] ["rock"] = 1) ∧
    (Disjoint (["rock"] : List String).toFinset
        (["jazz"] : List String).toFinset ∧
      jaccard_similarity ["rock"] ["jazz"] = 0) :=
  ⟨⟨by decide,
    (C9_jaccard_self_and_disjoint ["rock"] ["rock"]).1 (by decide)⟩,
   ⟨by decide,
    (C9_jaccard_self_and_disjoint ["rock"] ["jazz"]).2 (Or.inl (by decide))⟩⟩

/-- C6 counterexample: setting all four source weights to 0 and saving leaves
the sum at 0, not 1: `normalize_weights` only renormalizes when the sum is
positive, so the claimed invariant fails after this mutation. -/
theorem C6_weights_counterexample :
    ¬ |(UserRecommendationPreferences.save
        ⟨0, 0, 0, 0, 3/10, 1/5⟩).weightSum - 1| ≤ 1/1000000 := by
  norm_num [UserRecommendationPreferences.save,
    UserRecommendationPreferences.normalize_weights,
    UserRecommendationPreferences.weightSum]

/-- C6 (amended): after any weight mutation followed by a save, the four
source weights sum to exactly 1 provided the mutated weights have positive
sum; when the sum is not positive (all four weights zero or negative total),
`save` leaves the weights untouched. -/
theorem C6_weights_normalized_after_save
    (p : UserRecommendationPreferences) :
    (0 < p.weightSum → p.save.weightSum = 1) ∧
    (¬ 0 < p.weightSum → p.save = p) := by
  constructor
  · intro hpos
    have hne : p.weightSum ≠ 0 := ne_of_gt hpos
    simp only [UserRecommendationPreferences.save,
      UserRecommendationPreferences.normalize_weights, if_pos hpos]
    simp only [UserRecommendationPreferences.weightSum] at hne ⊢
    field_simp
  · intro hneg
    simp only [UserRecommendationPreferences.save,
      UserRecommendationPreferences.normalize_weights, if_neg hneg]

/-- C6 witness: the default weights (0.4/0.3/0.2/0.1) have positive sum, and
applying `C6_weights_normalized_after_save` at them shows the saved record's
weights sum to 1. -/
theorem C6_weights_witness :
    0 < (UserRecommendationPreferences.weightSum
        ⟨2/5, 3/10, 1/5, 1/10, 3/10, 1/5⟩) ∧
    (UserRecommendationPreferences.save
        ⟨2/5, 3/10, 1/5, 1/10, 3/10, 1/5⟩).weightSum = 1 :=
  ⟨by norm_num [UserRecommendationPreferences.weightSum],
   (C6_weights_normalized_after_save ⟨2/5, 3/10, 1/5, 1/10, 3/10, 1/5⟩).1
     (by norm_num [UserRecommendationPreferences.weightSum])⟩

/-- Dot product of two 6-dimensional feature vectors. -/
noncomputable def dotProduct6 (v w : Fin 6 → ℝ) : ℝ := ∑ i, v i * w i

/-- Euclidean norm of a 6-dimensional feature vector
(`np.linalg.norm`). -/
noncomputable def norm6 (v : Fin 6 → ℝ) : ℝ := Real.sqrt (∑ i, v i * v i)

/-- Cosine similarity of two 6-dimensional feature vectors, returning 0 when
either vector has zero norm.  This models both
`DiversityOptimizer._cosine_similarity` (explicit zero-norm guard) and
sklearn's `cosine_similarity` (which treats zero-norm rows as if their norm
were 1, likewise yielding 0). -/
noncomputable def cosineSimilarity (v w : Fin 6 → ℝ) : ℝ :=
  if norm6 v = 0 ∨ norm6 w = 0 then 0
  else dotProduct6 v w / (norm6 v * norm6 w)

namespace DiversityOptimizer

/-- Embeds `DiversityOptimizer._get_track_genres`: the genre tags of a track
as a set, empty when the track has no features. -/
def trackGenres (t : Track) : Finset String :=
  (t.simple_features.map (fun f => f.genre_tags.toFinset)).getD ∅

/-- The genre-overlap fallback of `DiversityOptimizer._calculate_similarity`:
Jaccard overlap of the genre sets when both are non-empty, 0.1 otherwise. -/
noncomputable def genreFallbackSimilarity (t1 t2 : Track) : ℝ :=
  if trackGenres t1 ≠ ∅ ∧ trackGenres t2 ≠ ∅ then
    if 0 < (trackGenres t1 ∪ trackGenres t2).card then
      ((trackGenres t1 ∩ trackGenres t2).card : ℝ) /
        ((trackGenres t1 ∪ trackGenres t2).card : ℝ)
    else 0
  else 0.1

/-- Embeds `DiversityOptimizer._calculate_similarity`, the optimizer's own
similarity heuristic: 0.8 for tracks by the same artist; cosine similarity of
the 6-dimensional feature vectors when both tracks have features; Jaccard
overlap of genre sets when both have genres; 0.1 otherwise. -/
noncomputable def calculate_similarity (t1 t2 : Track) : ℝ :=
  if t1.artist_id = t2.artist_id then 0.8
  else
    match t1.simple_features, t2.simple_features with
    | some f1, some f2 => cosineSimilarity (featureVector f1) (featureVector f2)
    | _, _ => genreFallbackSimilarity t1 t2

/-- Embeds the `max_sim` accumulation inside `_mmr_optimization`: the maximum
of 0 and the similarities between the candidate and every selected item, in
selection order. -/
noncomputable def maxSimTo (selected : List (Track × ℝ)) (c : Track) : ℝ :=
  selected.foldl (fun m s => max m (calculate_similarity c s.1)) 0

/-- The MMR objective `lambda * relevance - (1 - lambda) * maxSim`. -/
noncomputable def mmrScore (lam rel maxSim : ℝ) : ℝ :=
  lam * rel - (1 - lam) * maxSim

/-- Extracts the first element attaining the maximal score (Python `max` /
the strict-improvement scan in `_mmr_optimization`), returning it together
with the remaining elements in their original order. -/
noncomputable def extractBest (score : α → ℝ) : α → List α → α × List α
  | x, [] => (x, [])
  | x, y :: ys =>
      if score x < score y then
        ((extractBest score y ys).1, x :: (extractBest score y ys).2)
      else
        ((extractBest score x ys).1, y :: (extractBest score x ys).2)

/-- C1 helper: `extractBest` leaves exactly the other elements behind. -/
theorem extractBest_length (score : α → ℝ) (x : α) (ys : List α) :
    (extractBest score x ys).2.length = ys.length := by
  induction ys generalizing x with
  | nil => rfl
  | cons y ys ih =>
      rw [extractBest]
      split_ifs <;> simp [ih]

/-- Embeds the `while candidates:` loop of
`DiversityOptimizer._mmr_optimization`: repeatedly appends to `selected` the
remaining candidate with the greatest MMR score (earliest on ties, matching
the strict `>` update in the code) until no candidates remain. -/
noncomputable def mmrLoop (lam : ℝ) (selected : List (Track × ℝ)) :
    List (Track × ℝ) → List (Track × ℝ)
  | [] => selected
  | c :: cs =>
      let p := extractBest
        (fun q => mmrScore lam q.2 (maxSimTo selected q.1)) c cs
      mmrLoop lam (selected ++ [p.1]) p.2
  termination_by cands => cands.length
  decreasing_by simp [extractBest_length]

/-- Embeds `DiversityOptimizer._mmr_optimization`: picks the highest-relevance
candidate first (Python `max` keeps the earliest maximum), then runs the MMR
selection loop over the remaining candidates. -/
noncomputable def mmr_optimization (recs : List (Track × ℝ)) (lam : ℝ) :
    List (Track × ℝ) :=
  match recs with
  | [] => []
  | x :: xs =>
      let p := extractBest (fun q => q.2) x xs
      mmrLoop lam [p.1] p.2

/-- Python slice `l[:n]` for a possibly negative bound `n`: a nonnegative
bound takes a prefix, a negative bound drops `|n|` trailing elements. -/
def pySlice (n : ℤ) (l : List α) : List α :=
  if 0 ≤ n then l.take n.toNat else l.take (l.length - (-n).toNat)

/-- Embeds `DiversityOptimizer.apply_mmr`: returns `[]` on empty input,
otherwise caps `num_results` at the candidate count and slices the full MMR
ordering by it (Python slicing, so a negative `num_results` drops trailing
elements rather than being clamped to 0). -/
noncomputable def apply_mmr (candidates : List (Track × ℝ)) (lam : ℝ)
    (num_results : ℤ) : List (Track × ℝ) :=
  if candidates = [] then []
  else pySlice (min num_results (candidates.length : ℤ))
    (mmr_optimization candidates lam)

/-- All unordered pairs of a list, each pair in list order
(the double loop in `_calculate_intra_list_diversity`). -/
def pairsOf : List α → List (α × α)
  | [] => []
  | x :: xs => xs.map (fun y => (x, y)) ++ pairsOf xs

/-- Embeds `DiversityOptimizer._calculate_intra_list_diversity`: mean of
`1 - similarity` over all unordered pairs, 0 for lists of fewer than two
tracks. -/
noncomputable def calculate_intra_list_diversity (recs : List Track) : ℝ :=
  if recs.length < 2 then 0
  else ((pairsOf recs).map
      (fun p => 1 - calculate_similarity p.1 p.2)).sum /
    ((pairsOf recs).length : ℝ)

/-- Embeds `DiversityOptimizer._calculate_genre_coverage`:
`min(1, |union of genre sets| / 20)`. -/
def calculate_genre_coverage (recs : List Track) : ℚ :=
  min 1 (((recs.foldl (fun s t => s ∪ trackGenres t) ∅).card : ℚ) / 20)

/-- Embeds `DiversityOptimizer._calculate_artist_diversity`: number of
distinct artists divided by the list length, 0 for an empty list. -/
def calculate_artist_diversity (recs : List Track) : ℚ :=
  if recs = [] then 0
  else (((recs.map Track.artist_id).dedup.length : ℚ) / (recs.length : ℚ))

/-- Mean of a list of reals (`np.mean`). -/
noncomputable def listMean (xs : List ℝ) : ℝ := xs.sum / (xs.length : ℝ)

/-- Population standard deviation of a list of reals (`np.std`). -/
noncomputable def listStd (xs : List ℝ) : ℝ :=
  Real.sqrt ((xs.map (fun x => (x - listMean xs) ^ 2)).sum / (xs.length : ℝ))

/-- Embeds `DiversityOptimizer._calculate_feature_diversity`: collects the
feature vectors present in the list and returns the mean over the six
dimensions of the per-dimension standard deviation; 0 when fewer than two
tracks or fewer than two feature vectors are available. -/
noncomputable def calculate_feature_diversity (recs : List Track) : ℝ :=
  if recs.length < 2 then 0
  else
    if ((recs.filterMap Track.simple_features).length) < 2 then 0
    else
      (∑ i : Fin 6, listStd ((recs.filterMap Track.simple_features).map
        (fun f => featureVector f i))) / 6

/-- Result record of `DiversityOptimizer.calculate_diversity_metrics`. -/
structure DiversityMetrics where
  intra_list_diversity : ℝ
  genre_coverage : ℝ
  artist_diversity : ℝ
  feature_diversity : ℝ

/-- Embeds `DiversityOptimizer.calculate_diversity_metrics`: all four
diversity metrics, all 0 for an empty list. -/
noncomputable def calculate_diversity_metrics (recs : List Track) :
    DiversityMetrics :=
  if recs = [] then ⟨0, 0, 0, 0⟩
  else
    ⟨calculate_intra_list_diversity recs,
     (calculate_genre_coverage recs : ℝ),
     (calculate_artist_diversity recs : ℝ),
     calculate_feature_diversity recs⟩

/-- Embeds the loop body of `DiversityOptimizer.rerank_for_diversity`:
`cur` is the current list, `i` the 0-based loop index, `fuel` the remaining
iterations.  Each pass breaks once the intra-list diversity of the current
list reaches the target, otherwise re-runs MMR with
`lambda = max(0.1, 1 - (i+1)*0.1)`. -/
noncomputable def rerankLoop (target : ℝ) :
    List (Track × ℝ) → ℕ → ℕ → List (Track × ℝ)
  | cur, _, 0 => cur
  | cur, i, fuel + 1 =>
      if target ≤ calculate_intra_list_diversity (cur.map Prod.fst) then cur
      else rerankLoop target
        (mmr_optimization cur (max (1/10) (1 - (i + 1 : ℕ) * (1/10))))
        (i + 1) fuel

/-- Embeds `DiversityOptimizer.rerank_for_diversity`: iterates the MMR pass
with shrinking lambda for at most `max_iterations` rounds. -/
noncomputable def rerank_for_diversity (recommendations : List (Track × ℝ))
    (target_diversity : ℝ) (max_iterations : ℕ) : List (Track × ℝ) :=
  rerankLoop target_diversity recommendations 0 max_iterations

/-- The sequence of lists the rerank loop walks through: `k` MMR applications
with the code's lambda schedule `max(0.1, 1 - k*0.1)` at the `k`-th
application (`k` counted from 1). -/
noncomputable def mmrIterate (recs : List (Track × ℝ)) : ℕ → List (Track × ℝ)
  | 0 => recs
  | k + 1 => mmr_optimization (mmrIterate recs k)
      (max (1/10) (1 - (k + 1 : ℕ) * (1/10)))

end DiversityOptimizer

/-- Insertion step of a stable descending sort by a real-valued key. -/
noncomputable def insertDesc (key : α → ℝ) (x : α) : List α → List α
  | [] => [x]
  | y :: ys => if key y ≤ key x then x :: y :: ys else y :: insertDesc key x ys

/-- Stable descending sort by a real-valued key (Python
`sort(key=..., reverse=True)` / the ORM's `order_by('-...')`). -/
noncomputable def sortByDesc (key : α → ℝ) : List α → List α
  | [] => []
  | x :: xs => insertDesc key x (sortByDesc key xs)

namespace SimilarityEngine

/-- Embeds `SimilarityEngine._calculate_audio_similarity`: cosine similarity
of the feature vectors rescaled from [-1,1] to [0,1]. -/
noncomputable def calculate_audio_similarity (f1 f2 : SimpleTrackFeatures) :
    ℝ :=
  (cosineSimilarity (featureVector f1) (featureVector f2) + 1) / 2

/-- Embeds `SimilarityEngine._calculate_tag_similarity`: position-weighted
similarity over the combined genre+mood tag lists. -/
def calculate_tag_similarity (f1 f2 : SimpleTrackFeatures) : ℚ :=
  TagAnalyzer.weighted_tag_similarity (get_all_tags f1) (get_all_tags f2)

/-- Embeds `SimilarityEngine._calculate_popularity_similarity`:
`1 - |popA - popB|`. -/
def calculate_popularity_similarity (f1 f2 : SimpleTrackFeatures) : ℚ :=
  1 - |f1.popularity_score - f2.popularity_score|

/-- Embeds `SimilarityEngine.calculate_track_similarity`: `none` when either
track lacks features (the code logs and returns `None`, also on an internal
exception), otherwise the 0.6/0.3/0.1-weighted blend of the audio, tag and
popularity sub-scores. -/
noncomputable def calculate_track_similarity (a b : Track) : Option ℝ :=
  match a.simple_features, b.simple_features with
  | some f1, some f2 =>
      some ((6/10) * calculate_audio_similarity f1 f2 +
        (3/10) * (calculate_tag_similarity f1 f2 : ℝ) +
        (1/10) * (calculate_popularity_similarity f1 f2 : ℝ))
  | _, _ => none

/-- Embeds `SimilarityEngine._get_precalculated_similarities`: the stored
`TrackSimilarity` rows for the seed (passed as the `records` list), filtered
to the threshold, ordered by descending similarity and truncated. -/
noncomputable def get_precalculated_similarities
    (records : List (Track × ℝ)) (limit : ℕ) (min_similarity : ℝ) :
    List (Track × ℝ) :=
  (sortByDesc Prod.snd
    (TagAnalyzer.pfilter (fun p => min_similarity ≤ p.2) records)).take limit

/-- The accumulation loop of `_calculate_similarities_batch`: keeps a
candidate when the similarity is defined, nonzero (Python truthiness of the
float) and at least the threshold. -/
noncomputable def collectSimilarities (seed : Track) (min_similarity : ℝ) :
    List Track → List (Track × ℝ)
  | [] => []
  | t :: ts =>
      match calculate_track_similarity seed t with
      | none => collectSimilarities seed min_similarity ts
      | some s =>
          if s ≠ 0 ∧ min_similarity ≤ s then
            (t, s) :: collectSimilarities seed min_similarity ts
          else collectSimilarities seed min_similarity ts

/-- Embeds `SimilarityEngine._calculate_similarities_batch`: scans the first
100 catalog tracks that have features and are not the seed (the queryset,
modelled by filtering the `pool` list), keeps those clearing the threshold,
sorts descending and truncates to `limit`. -/
noncomputable def calculate_similarities_batch (seed : Track)
    (pool : List Track) (limit : ℕ) (min_similarity : ℝ) :
    List (Track × ℝ) :=
  (sortByDesc Prod.snd
    (collectSimilarities seed min_similarity
      ((TagAnalyzer.pfilter
        (fun t => t.simple_features.isSome ∧ t.id ≠ seed.id) pool).take
        100))).take limit

/-- Embeds `SimilarityEngine.find_similar_tracks` on a cache miss (the cache
is an external collaborator whose hit path returns a previously computed
result of this very function): returns `[]` when the seed has no features,
otherwise the precalculated rows if any survive the threshold, otherwise the
on-the-fly batch computation. -/
noncomputable def find_similar_tracks (seed : Track)
    (records : List (Track × ℝ)) (pool : List Track) (limit : ℕ)
    (min_similarity : ℝ) : List (Track × ℝ) :=
  if seed.simple_features.isSome then
    if get_precalculated_similarities records limit min_similarity ≠ [] then
      get_precalculated_similarities records limit min_similarity
    else calculate_similarities_batch seed pool limit min_similarity
  else []

end SimilarityEngine

namespace EnhancedDeepCutEngine

/-- Pre-truncation value of the deep-cut popularity threshold for
intermediate exploration levels:
`10 ** (log10(100000) - (log10(100000) - log10(500)) * level)`. -/
noncomputable def thresholdReal (level : ℝ) : ℝ :=
  (10 : ℝ) ^ (Real.logb 10 100000 -
    (Real.logb 10 100000 - Real.logb 10 500) * level)

/-- Embeds `EnhancedDeepCutEngine._calculate_popularity_threshold`: 100000 at
or below exploration level 0, 500 at or above level 1, otherwise the log-space
interpolation truncated to an integer (`int()` on a positive float is the
floor). -/
noncomputable def calculate_popularity_threshold (level : ℝ) : ℤ :=
  if level ≤ 0 then 100000
  else if 1 ≤ level then 500
  else ⌊thresholdReal level⌋

/-- Embeds `EnhancedDeepCutEngine._calculate_similarity`: the
SimilarityEngine pairwise similarity, with the fixed default 0.3 substituted
when that returns `None` (or raises). -/
noncomputable def calculate_similarity (t1 t2 : Track) : ℝ :=
  (SimilarityEngine.calculate_track_similarity t1 t2).getD (3/10)

/-- Embeds `EnhancedDeepCutEngine._count_unique_tags`: the number of distinct
genre+mood tags (tags are modelled as plain strings; the dict-shaped variant
normalizes to its name string). -/
def count_unique_tags (f : SimpleTrackFeatures) : ℕ :=
  ((f.genre_tags ++ f.mood_tags).dedup).length

/-- Embeds `EnhancedDeepCutEngine._calculate_novelty`: base 0.5, discounted
by artist fame when the artist has a nonzero playcount, multiplied by 1.2
when the track has more than 3 unique tags, capped at 1. -/
def calculate_novelty (t : Track) : ℚ :=
  let base : ℚ := 1/2
  let afterArtist : ℚ :=
    if t.artist_playcount ≠ 0 then
      base * (1 - min 1 ((t.artist_playcount : ℚ) / 1000000) * (1/2))
    else base
  let afterTags : ℚ :=
    match t.simple_features with
    | some f => if 3 < count_unique_tags f then afterArtist * (12/10)
        else afterArtist
    | none => afterArtist
  min 1 afterTags

/-- Embeds the `DeepCutCandidate` dataclass (the `explanation_factors` dict
repackages the same four numbers and the weights, so it is omitted). -/
structure DeepCutCandidate where
  track : Track
  similarity_score : ℝ
  popularity_score : ℝ
  novelty_score : ℝ
  overall_score : ℝ

/-- Embeds `EnhancedDeepCutEngine._score_candidate`: similarity, inverse
popularity and novelty blended with exploration-level-dependent weights
renormalized to sum to 1 (falling back to 1/3 each when their sum is not
positive). -/
noncomputable def score_candidate (seed cand : Track) (level : ℚ) :
    DeepCutCandidate :=
  let sim := calculate_similarity seed cand
  let pop : ℚ := 1 - min 1 ((cand.playcount : ℚ) / 100000)
  let nov : ℚ := calculate_novelty cand
  let sw : ℚ := 1 - level * (1/2)
  let nw : ℚ := level
  let pw : ℚ := level * (1/2)
  let total : ℚ := sw + nw + pw
  let sw' : ℚ := if 0 < total then sw / total else 1/3
  let nw' : ℚ := if 0 < total then nw / total else 1/3
  let pw' : ℚ := if 0 < total then pw / total else 1/3
  ⟨cand, sim, (pop : ℝ), (nov : ℝ),
    sim * (sw' : ℝ) + (nov : ℝ) * (nw' : ℝ) + (pop : ℝ) * (pw' : ℝ)⟩

/-- The scoring-and-filtering stage of `find_deepcuts`: scores the first 100
candidates of the pool and keeps those whose similarity score reaches
`min_similarity`. -/
noncomputable def scoredCandidates (seed : Track) (pool : List Track)
    (level : ℚ) (min_similarity : ℝ) : List DeepCutCandidate :=
  TagAnalyzer.pfilter (fun c => min_similarity ≤ c.similarity_score)
    ((pool.take 100).map (fun t => score_candidate seed t level))

/-- Embeds the `min_similarity` accumulation of `_select_diverse_deepcuts`:
minimum over the selected candidates of the similarity to `c`, starting at
1. -/
noncomputable def minSimToSelected (selected : List DeepCutCandidate)
    (c : DeepCutCandidate) : ℝ :=
  selected.foldl (fun m s => min m (calculate_similarity c.track s.track)) 1

/-- The diversity-adjusted MMR score of `_select_diverse_deepcuts`:
`0.7 * overall + 0.3 * (1 - minSimToSelected)`. -/
noncomputable def diversityAdjustedScore (selected : List DeepCutCandidate)
    (c : DeepCutCandidate) : ℝ :=
  c.overall_score * (7/10) + (1 - minSimToSelected selected c) * (3/10)

/-- Embeds the `while` loop of `_select_diverse_deepcuts`: while the limit is
not reached, appends the earliest remaining candidate with maximal
diversity-adjusted score, provided that score beats the `-1` initialization
of the scan (otherwise the Python loop breaks with `best_candidate = None`). -/
noncomputable def selectDiverseLoop (limit : ℕ)
    (selected : List DeepCutCandidate) :
    List DeepCutCandidate → List DeepCutCandidate
  | [] => selected
  | c :: cs =>
      if selected.length < limit then
        let p := DiversityOptimizer.extractBest
          (diversityAdjustedScore selected) c cs
        if -1 < diversityAdjustedScore selected p.1 then
          selectDiverseLoop limit (selected ++ [p.1]) p.2
        else selected
      else selected
  termination_by remaining => remaining.length
  decreasing_by simp [DiversityOptimizer.extractBest_length]

/-- Embeds `EnhancedDeepCutEngine._select_diverse_deepcuts`: seeds the
selection with the top-scored candidate, then runs the diversity loop. -/
noncomputable def select_diverse_deepcuts (candidates : List DeepCutCandidate)
    (limit : ℕ) : List DeepCutCandidate :=
  match candidates with
  | [] => []
  | c :: cs => selectDiverseLoop limit [c] cs

/-- Embeds `EnhancedDeepCutEngine.find_deepcuts` after candidate-pool
construction (the pool queryset — popularity threshold, seed/artist
exclusion, genre constraint and random sampling — is database-side and passed
as the `pool` list): scores and filters candidates, returns `[]` when none
survive, otherwise sorts by overall score and applies the diversity
selection. -/
noncomputable def find_deepcuts (seed : Track) (pool : List Track)
    (level : ℚ) (limit : ℕ) (min_similarity : ℝ) : List DeepCutCandidate :=
  match scoredCandidates seed pool level min_similarity with
  | [] => []
  | c :: cs =>
      select_diverse_deepcuts
        (sortByDesc DeepCutCandidate.overall_score (c :: cs)) limit

end EnhancedDeepCutEngine

/-- Modelled from the spec: the claim's `maxSimilarityToSelected`, "the
maximum pairwise similarity (via SimilarityEngine) between the candidate and
every already-selected item".  An undefined pairwise similarity contributes
nothing to the maximum; in the concrete counterexample input every pairwise
similarity is defined, so this choice is immaterial there. -/
noncomputable def specEngineMaxSim (selected : List (Track × ℝ)) (c : Track) :
    ℝ :=
  selected.foldl
    (fun m s =>
      max m ((SimilarityEngine.calculate_track_similarity c s.1).getD 0)) 0

/-- Concrete fixture: features with a unit vector along `energy` and one
genre tag. -/
def cexFeatA : SimpleTrackFeatures := ⟨1, 0, 0, 0, 0, 0, ["g1"], []⟩

/-- Concrete fixture: features with a unit vector along `valence` and a
different genre tag. -/
def cexFeatB : SimpleTrackFeatures := ⟨0, 1, 0, 0, 0, 0, ["g2"], []⟩

/-- Concrete fixture: features with a unit vector along `tempo` and the same
genre tag as `cexFeatA`. -/
def cexFeatC : SimpleTrackFeatures := ⟨0, 0, 1, 0, 0, 0, ["g1"], []⟩

/-- Concrete fixture: features with a unit vector along `energy` and no tags
at all. -/
def cexFeatNoTags : SimpleTrackFeatures := ⟨1, 0, 0, 0, 0, 0, [], []⟩

/-- Concrete fixture track A (artist 1, features `cexFeatA`). -/
def cexTrackA : Track := ⟨1, 1, 0, 0, some cexFeatA⟩

/-- Concrete fixture track B: same artist as A, features `cexFeatB`. -/
def cexTrackB : Track := ⟨2, 1, 0, 0, some cexFeatB⟩

/-- Concrete fixture track C: a different artist, features `cexFeatC`. -/
def cexTrackC : Track := ⟨3, 2, 0, 0, some cexFeatC⟩

/-- Concrete fixture track with the same features as `cexTrackA` but a
different identity and artist. -/
def cexTrackA2 : Track := ⟨4, 3, 0, 0, some cexFeatA⟩

/-- Concrete fixture tracks without any features. -/
def plainTrack (i a : ℕ) : Track := ⟨i, a, 0, 0, none⟩

/-- Concrete fixture tracks carrying `cexFeatNoTags` (identical features,
empty tag lists, distinct artists). -/
def cexTrackNoTags1 : Track := ⟨5, 4, 0, 0, some cexFeatNoTags⟩

/-- Second fixture track with the same tagless features. -/
def cexTrackNoTags2 : Track := ⟨6, 5, 0, 0, some cexFeatNoTags⟩

/-- Concrete candidate list for the C1 counterexample: relevances 0.9, 0.85,
0.8; B shares A's artist, C is similar to A for the SimilarityEngine but
orthogonal to A for the optimizer's own cosine. -/
noncomputable def cexCandidates : List (Track × ℝ) :=
  [(cexTrackA, 9/10), (cexTrackB, 17/20), (cexTrackC, 4/5)]

/-- Concrete candidate list for the C5 counterexample (lambda part): three
feature-less tracks, the second sharing the first's artist. -/
noncomputable def c5Candidates : List (Track × ℝ) :=
  [(plainTrack 1 1, 9/10), (plainTrack 2 1, 1/2), (plainTrack 3 2, 4/5)]

/-- Concrete candidate list for the C5 counterexample (negative
`num_results` part): two feature-less tracks by different artists. -/
noncomputable def c5Pair : List (Track × ℝ) :=
  [(plainTrack 1 1, 9/10), (plainTrack 2 2, 4/5)]

/-- Helper: membership characterization of `pfilter`. -/
theorem mem_pfilter {P : α → Prop} [DecidablePred P] {l : List α} {x : α} :
    x ∈ pfilter P l ↔ x ∈ l ∧ P x := by
  induction l with
  | nil => simp [pfilter]
  | cons y ys ih =>
      rw [pfilter]
      split_ifs with hy
      · simp only [List.mem_cons, ih]
        constructor
        · rintro (rfl | ⟨h1, h2⟩)
          · exact ⟨Or.inl rfl, hy⟩
          · exact ⟨Or.inr h1, h2⟩
        · rintro ⟨rfl | h1, h2⟩
          · exact Or.inl rfl
          · exact Or.inr ⟨h1, h2⟩
      · simp only [List.mem_cons, ih]
        constructor
        · rintro ⟨h1, h2⟩
          exact ⟨Or.inr h1, h2⟩
        · rintro ⟨rfl | h1, h2⟩
          · exact absurd h2 hy
          · exact ⟨h1, h2⟩

/-- C7: the deep-cut popularity threshold is exactly 100000 at exploration
level ≤ 0, exactly 500 at level ≥ 1, and for intermediate levels the
pre-truncation value interpolates linearly in `log10` space between those
endpoints, the returned integer being its floor. -/
theorem C7_deepcut_threshold_log_interpolation (level : ℝ) :
    (level ≤ 0 →
      EnhancedDeepCutEngine.calculate_popularity_threshold level = 100000) ∧
    (1 ≤ level →
      EnhancedDeepCutEngine.calculate_popularity_threshold level = 500) ∧
    (0 < level → level < 1 →
      Real.logb 10 (EnhancedDeepCutEngine.thresholdReal level) =
        (1 - level) * Real.logb 10 100000 + level * Real.logb 10 500 ∧
      EnhancedDeepCutEngine.calculate_popularity_threshold level =
        ⌊EnhancedDeepCutEngine.thresholdReal level⌋) := by
  refine ⟨fun h0 => ?_, fun h1 => ?_, fun hgt hlt => ⟨?_, ?_⟩⟩
  · rw [EnhancedDeepCutEngine.calculate_popularity_threshold, if_pos h0]
  · rw [EnhancedDeepCutEngine.calculate_popularity_threshold,
      if_neg (by linarith), if_pos h1]
  · rw [EnhancedDeepCutEngine.thresholdReal,
      Real.logb_rpow (by norm_num) (by norm_num)]
    ring
  · rw [EnhancedDeepCutEngine.calculate_popularity_threshold,
      if_neg (by linarith), if_neg (by linarith)]

/-- C7 witness: applying `C7_deepcut_threshold_log_interpolation` at the
endpoints and at the concrete intermediate level 1/2. -/
theorem C7_deepcut_threshold_witness :
    EnhancedDeepCutEngine.calculate_popularity_threshold 0 = 100000 ∧
    EnhancedDeepCutEngine.calculate_popularity_threshold 1 = 500 ∧
    Real.logb 10 (EnhancedDeepCutEngine.thresholdReal (1/2)) =
      (1 - 1/2) * Real.logb 10 100000 + (1/2) * Real.logb 10 500 :=
  ⟨(C7_deepcut_threshold_log_interpolation 0).1 le_rfl,
   (C7_deepcut_threshold_log_interpolation 1).2.1 le_rfl,
   ((C7_deepcut_threshold_log_interpolation (1/2)).2.2 (by norm_num)
     (by norm_num)).1⟩

/-- C10: when the SimilarityEngine similarity of the seed/candidate pair is
undefined, the deep-cut engine substitutes the fixed default 0.3, and with
`min_similarity ≤ 0.3` such a candidate (within the first 100 of the pool)
survives the similarity-threshold filter of `find_deepcuts`. -/
theorem C10_deepcut_default_similarity (seed c : Track) (pool : List Track)
    (level : ℚ) (min_similarity : ℝ)
    (hnone : SimilarityEngine.calculate_track_similarity seed c = none)
    (hmin : min_similarity ≤ 3/10) (hc : c ∈ pool.take 100) :
    EnhancedDeepCutEngine.calculate_similarity seed c = 3/10 ∧
    EnhancedDeepCutEngine.score_candidate seed c level ∈
      EnhancedDeepCutEngine.scoredCandidates seed pool level min_similarity := by
  have hsim : EnhancedDeepCutEngine.calculate_similarity seed c = 3/10 := by
    rw [EnhancedDeepCutEngine.calculate_similarity, hnone]
    rfl
  refine ⟨hsim, ?_⟩
  rw [EnhancedDeepCutEngine.scoredCandidates, mem_pfilter]
  constructor
  · exact List.mem_map.2 ⟨c, hc, rfl⟩
  · show min_similarity ≤
      (EnhancedDeepCutEngine.score_candidate seed c level).similarity_score
    have : (EnhancedDeepCutEngine.score_candidate seed c level).similarity_score
        = EnhancedDeepCutEngine.calculate_similarity seed c := rfl
    rw [this, hsim]
    exact hmin

/-- C10 witness: a feature-less seed and candidate; the engine similarity is
undefined, the deep-cut similarity is 0.3, and the candidate passes the
filter at `min_similarity = 0.3`. -/
theorem C10_deepcut_default_witness :
    SimilarityEngine.calculate_track_similarity (plainTrack 7 6)
      (plainTrack 8 7) = none ∧
    (3/10 : ℝ) ≤ 3/10 ∧
    (plainTrack 8 7) ∈ [plainTrack 8 7].take 100 ∧
    EnhancedDeepCutEngine.calculate_similarity (plainTrack 7 6)
      (plainTrack 8 7) = 3/10 ∧
    EnhancedDeepCutEngine.score_candidate (plainTrack 7 6) (plainTrack 8 7)
        (1/2) ∈
      EnhancedDeepCutEngine.scoredCandidates (plainTrack 7 6)
        [plainTrack 8 7] (1/2) (3/10) := by
  have hnone : SimilarityEngine.calculate_track_similarity (plainTrack 7 6)
      (plainTrack 8 7) = none := rfl
  refine ⟨hnone, le_rfl, by simp, ?_, ?_⟩
  · exact (C10_deepcut_default_similarity (plainTrack 7 6) (plainTrack 8 7)
      [plainTrack 8 7] (1/2) (3/10) hnone le_rfl (by simp)).1
  · exact (C10_deepcut_default_similarity (plainTrack 7 6) (plainTrack 8 7)
      [plainTrack 8 7] (1/2) (3/10) hnone le_rfl (by simp)).2

/-- C3 helper: the cosine similarity of a nonzero vector with itself is 1. -/
theorem cosineSimilarity_self {v : Fin 6 → ℝ} (hv : v ≠ 0) :
    cosineSimilarity v v = 1 := by
  obtain ⟨i, hi⟩ := Function.ne_iff.1 hv
  have hdpos : 0 < dotProduct6 v v := by
    rw [dotProduct6]
    refine Finset.sum_pos' (fun j _ => mul_self_nonneg _) ?_
    exact ⟨i, Finset.mem_univ i, mul_self_pos.2 (by simpa using hi)⟩
  have hnorm : norm6 v = Real.sqrt (dotProduct6 v v) := by
    rw [norm6, dotProduct6]
  have hnpos : (0 : ℝ) < norm6 v := by
    rw [hnorm]
    exact Real.sqrt_pos.2 hdpos
  rw [cosineSimilarity, if_neg (by push_neg; exact ⟨ne_of_gt hnpos,
    ne_of_gt hnpos⟩), hnorm, Real.mul_self_sqrt hdpos.le]
  exact div_self (ne_of_gt hdpos)

/-- C3 helper: the feature vector of `cexFeatNoTags` is nonzero. -/
theorem cexFeatNoTags_vector_ne_zero : featureVector cexFeatNoTags ≠ 0 := by
  intro h
  have h0 := congrFun h 0
  rw [featureVector, cexFeatNoTags] at h0
  norm_num at h0

/-- C3 counterexample: two tracks with identical FeatureVectors (same six
numeric features, same — namely empty — genre and mood tag lists, same
popularity) whose pairwise similarity is 0.7, not 1.0: with no tags the tag
component contributes 0 instead of 0.3. -/
theorem C3_identical_features_counterexample :
    cexTrackNoTags1.simple_features = cexTrackNoTags2.simple_features ∧
    SimilarityEngine.calculate_track_similarity cexTrackNoTags1
      cexTrackNoTags2 = some (7/10) ∧
    ¬ SimilarityEngine.calculate_track_similarity cexTrackNoTags1
      cexTrackNoTags2 = some 1 := by
  have heval : SimilarityEngine.calculate_track_similarity cexTrackNoTags1
      cexTrackNoTags2 = some (7/10) := by
    rw [SimilarityEngine.calculate_track_similarity]
    norm_num [cexTrackNoTags1, cexTrackNoTags2]
    rw [SimilarityEngine.calculate_audio_similarity,
      cosineSimilarity_self cexFeatNoTags_vector_ne_zero]
    have htag : SimilarityEngine.calculate_tag_similarity cexFeatNoTags
        cexFeatNoTags = 0 := by
      norm_num [SimilarityEngine.calculate_tag_similarity, get_all_tags,
        cexFeatNoTags, weighted_tag_similarity]
    have hpop : SimilarityEngine.calculate_popularity_similarity cexFeatNoTags
        cexFeatNoTags = 1 := by
      norm_num [SimilarityEngine.calculate_popularity_similarity,
        cexFeatNoTags]
    rw [htag, hpop]
    norm_num
  refine ⟨rfl, heval, ?_⟩
  rw [heval]
  intro h
  have := Option.some.inj h
  norm_num at this

/-- C3 (amended): for every two tracks carrying the same FeatureVector whose
numeric vector is nonzero and whose combined tag list is non-empty, the
pairwise similarity is exactly 1.0.  (The unamended claim fails when the tag
lists are empty — tag component 0 instead of 0.3 — or when all six numeric
features are 0 — cosine 0 instead of 1.) -/
theorem C3_identical_features_amended (a b : Track) (f : SimpleTrackFeatures)
    (ha : a.simple_features = some f) (hb : b.simple_features = some f)
    (hvec : featureVector f ≠ 0) (htags : f.genre_tags ++ f.mood_tags ≠ []) :
    SimilarityEngine.calculate_track_similarity a b = some 1 := by
  obtain ⟨ia, aa, pa, qa, fa⟩ := a
  obtain ⟨ib, ab, pb, qb, fb⟩ := b
  simp only at ha hb
  subst ha
  subst hb
  rw [SimilarityEngine.calculate_track_similarity]
  simp only
  rw [SimilarityEngine.calculate_audio_similarity, cosineSimilarity_self hvec]
  have htag : SimilarityEngine.calculate_tag_similarity f f = 1 := by
    rw [SimilarityEngine.calculate_tag_similarity]
    refine weighted_tag_similarity_self ?_
    rw [get_all_tags]
    simpa [List.dedup_eq_nil] using htags
  have hpop : SimilarityEngine.calculate_popularity_similarity f f = 1 := by
    rw [SimilarityEngine.calculate_popularity_similarity]
    norm_num
  rw [htag, hpop]
  norm_num

/-- C3 witness: two distinct tracks sharing the features `cexFeatA` (nonzero
vector, one genre tag); `C3_identical_features_amended` gives pairwise
similarity exactly 1. -/
theorem C3_identical_features_witness :
    cexTrackA.simple_features = some cexFeatA ∧
    cexTrackA2.simple_features = some cexFeatA ∧
    featureVector cexFeatA ≠ 0 ∧
    cexFeatA.genre_tags ++ cexFeatA.mood_tags ≠ [] ∧
    SimilarityEngine.calculate_track_similarity cexTrackA cexTrackA2 =
      some 1 := by
  have hvec : featureVector cexFeatA ≠ 0 := by
    intro h
    have h0 := congrFun h 0
    rw [featureVector, cexFeatA] at h0
    norm_num at h0
  have htags : cexFeatA.genre_tags ++ cexFeatA.mood_tags ≠ [] := by
    rw [cexFeatA]
    simp
  exact ⟨rfl, rfl, hvec, htags,
    C3_identical_features_amended cexTrackA cexTrackA2 cexFeatA rfl rfl hvec
      htags⟩

/-- C2 helper: `insertDesc` permutes the inserted element into the list. -/
theorem insertDesc_perm (key : α → ℝ) (x : α) (l : List α) :
    (insertDesc key x l).Perm (x :: l) := by
  induction l with
  | nil => exact List.Perm.refl _
  | cons y ys ih =>
      rw [insertDesc]
      split_ifs
      · exact List.Perm.refl _
      · exact (ih.cons y).trans (List.Perm.swap x y ys)

/-- C2 helper: `insertDesc` preserves the descending-key ordering. -/
theorem insertDesc_pairwise (key : α → ℝ) (x : α) {l : List α}
    (h : l.Pairwise (fun a b => key b ≤ key a)) :
    (insertDesc key x l).Pairwise (fun a b => key b ≤ key a) := by
  induction l with
  | nil => simp [insertDesc]
  | cons y ys ih =>
      obtain ⟨hy, hys⟩ := List.pairwise_cons.1 h
      rw [insertDesc]
      split_ifs with hxy
      · refine List.pairwise_cons.2 ⟨?_, h⟩
        intro z hz
        rcases List.mem_cons.1 hz with rfl | hz
        · exact hxy
        · exact le_trans (hy z hz) hxy
      · refine List.pairwise_cons.2 ⟨?_, ih hys⟩
        intro z hz
        rcases List.mem_cons.1 ((insertDesc_perm key x ys).mem_iff.1 hz) with
          rfl | hz'
        · exact (not_le.1 hxy).le
        · exact hy z hz'

/-- C2 helper: the descending sort is a permutation of its input. -/
theorem sortByDesc_perm (key : α → ℝ) (l : List α) :
    (sortByDesc key l).Perm l := by
  induction l with
  | nil => exact List.Perm.refl _
  | cons x xs ih =>
      rw [sortByDesc]
      exact (insertDesc_perm key x _).trans (ih.cons x)

/-- C2 helper: the descending sort output is ordered by nonincreasing key. -/
theorem sortByDesc_pairwise (key : α → ℝ) (l : List α) :
    (sortByDesc key l).Pairwise (fun a b => key b ≤ key a) := by
  induction l with
  | nil => simp [sortByDesc]
  | cons x xs ih =>
      rw [sortByDesc]
      exact insertDesc_pairwise key x ih

/-- C2 helper: every pair kept by the batch scan clears the threshold. -/
theorem collectSimilarities_mem {seed : Track} {m : ℝ} {ts : List Track}
    {p : Track × ℝ}
    (hp : p ∈ SimilarityEngine.collectSimilarities seed m ts) : m ≤ p.2 := by
  induction ts with
  | nil => cases hp
  | cons t ts ih =>
      rw [SimilarityEngine.collectSimilarities] at hp
      split at hp
      · exact ih hp
      · split_ifs at hp with hc
        · rcases List.mem_cons.1 hp with rfl | hp
          · exact hc.2
          · exact ih hp
        · exact ih hp

/-- C2: the output of `find_similar_tracks` is sorted by nonincreasing score,
has at most `limit` entries, every entry's score clears `min_similarity`, and
a seed without features yields the empty list (no error). -/
theorem C2_find_similar_tracks_contract (seed : Track)
    (records : List (Track × ℝ)) (pool : List Track) (limit : ℕ)
    (min_similarity : ℝ) :
    (SimilarityEngine.find_similar_tracks seed records pool limit
      min_similarity).Pairwise (fun a b => b.2 ≤ a.2) ∧
    (SimilarityEngine.find_similar_tracks seed records pool limit
      min_similarity).length ≤ limit ∧
    (∀ p ∈ SimilarityEngine.find_similar_tracks seed records pool limit
      min_similarity, min_similarity ≤ p.2) ∧
    (seed.simple_features = none →
      SimilarityEngine.find_similar_tracks seed records pool limit
        min_similarity = []) := by
  rw [SimilarityEngine.find_similar_tracks]
  split_ifs with hsome hpre
  · rw [SimilarityEngine.get_precalculated_similarities]
    refine ⟨?_, ?_, ?_, ?_⟩
    · exact (sortByDesc_pairwise Prod.snd _).sublist (List.take_sublist _ _)
    · exact (List.length_take_le _ _)
    · intro p hp
      have hp1 := (List.take_sublist _ _).mem hp
      have hp2 := (sortByDesc_perm Prod.snd _).mem_iff.1 hp1
      exact (mem_pfilter.1 hp2).2
    · intro hnone
      rw [hnone] at hsome
      simp at hsome
  · rw [SimilarityEngine.calculate_similarities_batch]
    refine ⟨?_, ?_, ?_, ?_⟩
    · exact (sortByDesc_pairwise Prod.snd _).sublist (List.take_sublist _ _)
    · exact (List.length_take_le _ _)
    · intro p hp
      have hp1 := (List.take_sublist _ _).mem hp
      have hp2 := (sortByDesc_perm Prod.snd _).mem_iff.1 hp1
      exact collectSimilarities_mem hp2
    · intro hnone
      rw [hnone] at hsome
      simp at hsome
  · exact ⟨List.Pairwise.nil, by simp, by simp, fun _ => rfl⟩

/-- Helper: the feature vector of `cexFeatA` is nonzero. -/
theorem cexFeatA_vector_ne_zero : featureVector cexFeatA ≠ 0 := by
  intro h
  have h0 := congrFun h 0
  rw [featureVector, cexFeatA] at h0
  norm_num at h0

/-- Helper: concrete engine similarity of `cexTrackA` and the
identically-featured `cexTrackA2` is 1. -/
theorem se_sim_A_A2 : SimilarityEngine.calculate_track_similarity cexTrackA
    cexTrackA2 = some 1 := by
  rw [SimilarityEngine.calculate_track_similarity]
  norm_num [cexTrackA, cexTrackA2]
  rw [SimilarityEngine.calculate_audio_similarity,
    cosineSimilarity_self cexFeatA_vector_ne_zero]
  have htag : SimilarityEngine.calculate_tag_similarity cexFeatA cexFeatA
      = 1 := by
    rw [SimilarityEngine.calculate_tag_similarity]
    exact weighted_tag_similarity_self (by rw [get_all_tags, cexFeatA]; simp)
  have hpop : SimilarityEngine.calculate_popularity_similarity cexFeatA
      cexFeatA = 1 := by
    norm_num [SimilarityEngine.calculate_popularity_similarity]
  rw [htag, hpop]
  norm_num

/-- Helper: concrete engine similarity of `cexTrackA` and `cexTrackC` is
0.7 (orthogonal feature vectors, shared genre tag, equal popularity). -/
theorem se_sim_A_C : SimilarityEngine.calculate_track_similarity cexTrackA
    cexTrackC = some (7/10) := by
  rw [SimilarityEngine.calculate_track_similarity]
  norm_num [cexTrackA, cexTrackC]
  rw [SimilarityEngine.calculate_audio_similarity, cosineSimilarity]
  have hdot : dotProduct6 (featureVector cexFeatA)
      (featureVector cexFeatC) = 0 := by
    rw [dotProduct6]
    simp only [Fin.sum_univ_succ, Fin.sum_univ_zero, Matrix.cons_val_succ,
      Matrix.cons_val_zero, featureVector, cexFeatA, cexFeatC]
    norm_num
  rw [hdot]
  have htag : SimilarityEngine.calculate_tag_similarity cexFeatA cexFeatC
      = 1 := by
    norm_num [SimilarityEngine.calculate_tag_similarity, get_all_tags,
      cexFeatA, cexFeatC, weighted_tag_similarity, get_tag_weights,
      List.enum, List.enumFrom, dictInsert, pfilter, alookup]
  have hpop : SimilarityEngine.calculate_popularity_similarity cexFeatA
      cexFeatC = 1 := by
    norm_num [SimilarityEngine.calculate_popularity_similarity, cexFeatA,
      cexFeatC]
  rw [htag, hpop]
  norm_num

/-- C2 witness: a concrete run of `find_similar_tracks` (seed `cexTrackA`, no
precalculated rows, two-candidate pool, limit 10, threshold 0.5) evaluates to
a two-element descending list, and `C2_find_similar_tracks_contract` applies
to it. -/
theorem C2_find_similar_witness :
    SimilarityEngine.find_similar_tracks cexTrackA [] [cexTrackA2, cexTrackC]
        10 (1/2) = [(cexTrackA2, 1), (cexTrackC, 7/10)] ∧
    (SimilarityEngine.find_similar_tracks cexTrackA [] [cexTrackA2, cexTrackC]
      10 (1/2)).Pairwise (fun a b => b.2 ≤ a.2) ∧
    (SimilarityEngine.find_similar_tracks cexTrackA [] [cexTrackA2, cexTrackC]
      10 (1/2)).length ≤ 10 ∧
    (∀ p ∈ SimilarityEngine.find_similar_tracks cexTrackA []
      [cexTrackA2, cexTrackC] 10 (1/2), (1/2 : ℝ) ≤ p.2) := by
  have heval : SimilarityEngine.find_similar_tracks cexTrackA []
      [cexTrackA2, cexTrackC] 10 (1/2) =
      [(cexTrackA2, 1), (cexTrackC, 7/10)] := by
    rw [SimilarityEngine.find_similar_tracks]
    rw [if_pos (by rw [cexTrackA]; rfl)]
    rw [if_neg (by
      rw [SimilarityEngine.get_precalculated_similarities]
      simp [pfilter, sortByDesc])]
    rw [SimilarityEngine.calculate_similarities_batch]
    rw [pfilter, if_pos (by exact ⟨rfl, by decide⟩),
      pfilter, if_pos (by exact ⟨rfl, by decide⟩), pfilter]
    rw [@List.take_of_length_le _ 100 [cexTrackA2, cexTrackC] (by norm_num)]
    have hcol : SimilarityEngine.collectSimilarities cexTrackA (1/2)
        [cexTrackA2, cexTrackC] = [(cexTrackA2, 1), (cexTrackC, (7:ℝ)/10)] := by
      simp only [SimilarityEngine.collectSimilarities, se_sim_A_A2,
        se_sim_A_C]
      norm_num
    rw [hcol]
    have hsort : sortByDesc Prod.snd
        [(cexTrackA2, (1:ℝ)), (cexTrackC, (7:ℝ)/10)] =
        [(cexTrackA2, 1), (cexTrackC, 7/10)] := by
      simp only [sortByDesc, insertDesc]
      norm_num
    rw [hsort]
    simp
  have hc := C2_find_similar_tracks_contract cexTrackA []
    [cexTrackA2, cexTrackC] 10 (1/2)
  exact ⟨heval, hc.1, hc.2.1, hc.2.2.1⟩

namespace DiversityOptimizer

/-- C1 helper: `extractBest` returns a permutation of its input, split into
the chosen element and the rest. -/
theorem extractBest_perm (score : α → ℝ) (x : α) (ys : List α) :
    ((extractBest score x ys).1 :: (extractBest score x ys).2).Perm
      (x :: ys) := by
  induction ys generalizing x with
  | nil => exact List.Perm.refl _
  | cons y ys ih =>
      rw [extractBest]
      split_ifs
      · exact (List.Perm.swap _ _ _).trans ((ih y).cons x)
      · exact ((List.Perm.swap _ _ _).trans ((ih x).cons y)).trans
          (List.Perm.swap x y ys)

/-- C1 helper: the element chosen by `extractBest` attains the maximal
score. -/
theorem extractBest_max (score : α → ℝ) (x : α) (ys : List α) :
    ∀ q ∈ x :: ys, score q ≤ score (extractBest score x ys).1 := by
  induction ys generalizing x with
  | nil =>
      intro q hq
      rcases List.mem_cons.1 hq with rfl | hq
      · exact le_rfl
      · cases hq
  | cons y ys ih =>
      intro q hq
      rw [extractBest]
      split_ifs with hxy
      · rcases List.mem_cons.1 hq with h1 | h1
        · rw [h1]
          exact le_trans hxy.le (ih y y (List.mem_cons_self _ _))
        · exact ih y q h1
      · rcases List.mem_cons.1 hq with h1 | h1
        · rw [h1]
          exact ih x x (List.mem_cons_self _ _)
        · rcases List.mem_cons.1 h1 with h2 | h2
          · rw [h2]
            exact le_trans (not_lt.1 hxy) (ih x x (List.mem_cons_self _ _))
          · exact ih x q (List.mem_cons_of_mem _ h2)

/-- C1 helper: full characterization of the MMR selection loop — it appends
to `sel` a permutation of the candidates in which each element, at the moment
it is chosen, attains the maximal MMR score against the already-selected
prefix. -/
theorem mmrLoop_spec (lam : ℝ) :
    ∀ (n : ℕ) (cands : List (Track × ℝ)), cands.length ≤ n →
    ∀ (sel : List (Track × ℝ)), ∃ rest,
      mmrLoop lam sel cands = sel ++ rest ∧
      rest.Perm cands ∧
      ∀ (k : ℕ) (hk : k < rest.length), ∀ q ∈ rest.drop k,
        mmrScore lam q.2 (maxSimTo (sel ++ rest.take k) q.1) ≤
        mmrScore lam (rest.get ⟨k, hk⟩).2
          (maxSimTo (sel ++ rest.take k) (rest.get ⟨k, hk⟩).1) := by
  intro n
  induction n with
  | zero =>
      intro cands hlen sel
      have hnil : cands = [] := List.length_eq_zero.1 (Nat.le_zero.1 hlen)
      subst hnil
      exact ⟨[], by simp [mmrLoop], List.Perm.refl _,
        fun k hk => absurd hk (by simp)⟩
  | succ n ih =>
      intro cands hlen sel
      cases cands with
      | nil =>
          exact ⟨[], by simp [mmrLoop], List.Perm.refl _,
            fun k hk => absurd hk (by simp)⟩
      | cons c cs =>
          have hstep : mmrLoop lam sel (c :: cs) = mmrLoop lam
              (sel ++ [(extractBest
                (fun q => mmrScore lam q.2 (maxSimTo sel q.1)) c cs).1])
              (extractBest
                (fun q => mmrScore lam q.2 (maxSimTo sel q.1)) c cs).2 := by
            rw [mmrLoop]
          set f := fun q : Track × ℝ => mmrScore lam q.2 (maxSimTo sel q.1)
            with hf
          set p := extractBest f c cs with hp
          have hlen' : p.2.length ≤ n := by
            rw [hp, extractBest_length]
            simpa using Nat.succ_le_succ_iff.1 hlen
          obtain ⟨rest', heq', hperm', hgreedy'⟩ :=
            ih p.2 hlen' (sel ++ [p.1])
          refine ⟨p.1 :: rest', ?_, ?_, ?_⟩
          · rw [hstep, heq', List.append_assoc]
            rfl
          · exact (hperm'.cons p.1).trans (extractBest_perm f c cs)
          · intro k hk q hq
            cases k with
            | zero =>
                simp only [List.take_zero, List.append_nil,
                  List.drop_zero] at hq ⊢
                have hqmem : q ∈ c :: cs :=
                  (extractBest_perm f c cs).mem_iff.1
                    ((hperm'.cons p.1).mem_iff.1 hq)
                exact extractBest_max f c cs q hqmem
            | succ k' =>
                have hk' : k' < rest'.length := by
                  simpa using Nat.succ_lt_succ_iff.1 (by simpa using hk)
                have htake : sel ++ (p.1 :: rest').take (k' + 1) =
                    (sel ++ [p.1]) ++ rest'.take k' := by
                  rw [List.take_succ_cons, List.append_assoc]
                  rfl
                have hget : (p.1 :: rest').get ⟨k' + 1, hk⟩ =
                    rest'.get ⟨k', hk'⟩ := rfl
                rw [List.drop_succ_cons] at hq
                rw [htake, hget]
                exact hgreedy' k' hk' q hq

end DiversityOptimizer

/-- Default inhabitant used only so that `List.headI` is well-typed. -/
instance : Inhabited Track := ⟨⟨0, 0, 0, 0, none⟩⟩

namespace DiversityOptimizer

/-- Helper: the MMR ordering is a permutation of the candidate list. -/
theorem mmr_optimization_perm (recs : List (Track × ℝ)) (lam : ℝ) :
    (mmr_optimization recs lam).Perm recs := by
  cases recs with
  | nil => exact List.Perm.refl _
  | cons x xs =>
      obtain ⟨rest, heq, hperm, _⟩ := mmrLoop_spec lam
        (extractBest (fun q : Track × ℝ => q.2) x xs).2.length
        (extractBest (fun q : Track × ℝ => q.2) x xs).2 le_rfl
        [(extractBest (fun q : Track × ℝ => q.2) x xs).1]
      have hout : mmr_optimization (x :: xs) lam =
          (extractBest (fun q : Track × ℝ => q.2) x xs).1 :: rest := by
        rw [mmr_optimization]
        exact heq
      rw [hout]
      exact (hperm.cons _).trans (extractBest_perm _ x xs)

/-- C1 (amended): on every non-empty candidate list, `_mmr_optimization`
returns a permutation of the candidates that starts with the
highest-relevance candidate and, at every later position `k`, places a
candidate attaining the maximal `lambda*relevance - (1-lambda)*maxSim` score
among the candidates still remaining, where `maxSim` is the maximum (floored
at 0) of the *optimizer's own* pairwise similarity heuristic
(`DiversityOptimizer._calculate_similarity`: 0.8 for a shared artist, else
feature-vector cosine, else genre Jaccard, else 0.1) against the selected
prefix — not the SimilarityEngine similarity the claim names.  `apply_mmr`
returns a Python slice (hence a prefix) of that ordering. -/
theorem C1_mmr_greedy_selection_amended (recs : List (Track × ℝ)) (lam : ℝ)
    (hne : recs ≠ []) :
    (mmr_optimization recs lam).Perm recs ∧
    (∀ q ∈ recs, q.2 ≤ (mmr_optimization recs lam).headI.2) ∧
    (∀ (k : ℕ) (y : Track × ℝ) (ys : List (Track × ℝ)), 0 < k →
      (mmr_optimization recs lam).drop k = y :: ys →
      ∀ q ∈ y :: ys,
        mmrScore lam q.2
          (maxSimTo ((mmr_optimization recs lam).take k) q.1) ≤
        mmrScore lam y.2
          (maxSimTo ((mmr_optimization recs lam).take k) y.1)) ∧
    (∀ num : ℤ, apply_mmr recs lam num <+: mmr_optimization recs lam) := by
  obtain ⟨x, xs, rfl⟩ := List.exists_cons_of_ne_nil hne
  obtain ⟨rest, heq, hperm, hgreedy⟩ := mmrLoop_spec lam
    (extractBest (fun q : Track × ℝ => q.2) x xs).2.length
    (extractBest (fun q : Track × ℝ => q.2) x xs).2 le_rfl
    [(extractBest (fun q : Track × ℝ => q.2) x xs).1]
  have hout : mmr_optimization (x :: xs) lam =
      (extractBest (fun q : Track × ℝ => q.2) x xs).1 :: rest := by
    rw [mmr_optimization]
    exact heq
  refine ⟨?_, ?_, ?_, ?_⟩
  · rw [hout]
    exact (hperm.cons _).trans (extractBest_perm _ x xs)
  · intro q hq
    rw [hout]
    exact extractBest_max (fun q : Track × ℝ => q.2) x xs q hq
  · intro k y ys hk0 hdrop q hq
    cases k with
    | zero => exact absurd hk0 (lt_irrefl 0)
    | succ k' =>
        rw [hout, List.drop_succ_cons] at hdrop
        have hk' : k' < rest.length := by
          have hlen := congrArg List.length hdrop
          rw [List.length_drop] at hlen
          simp only [List.length_cons] at hlen
          omega
        have hget : rest.get ⟨k', hk'⟩ = y := by
          have hd := List.drop_eq_getElem_cons hk'
          rw [hdrop] at hd
          injection hd with h1 _
          rw [List.get_eq_getElem]
          exact h1.symm
        have hmem : q ∈ rest.drop k' := by
          rw [hdrop]
          exact hq
        have := hgreedy k' hk' q hmem
        rw [hget] at this
        rw [hout, List.take_succ_cons]
        exact this
  · intro num
    rw [apply_mmr, if_neg (by simp)]
    rw [pySlice]
    split_ifs
    · exact List.take_prefix _ _
    · exact List.take_prefix _ _

/-- C1 witness: applying `C1_mmr_greedy_selection_amended` to the concrete
two-candidate list `c5Pair`, whose MMR ordering also evaluates explicitly. -/
theorem C1_mmr_greedy_witness :
    c5Pair ≠ [] ∧
    (mmr_optimization c5Pair (1/2)).Perm c5Pair ∧
    (∀ q ∈ c5Pair, q.2 ≤ (mmr_optimization c5Pair (1/2)).headI.2) ∧
    mmr_optimization c5Pair (1/2) =
      [(plainTrack 1 1, 9/10), (plainTrack 2 2, 4/5)] := by
  have hne : c5Pair ≠ [] := by rw [c5Pair]; simp
  have hc := C1_mmr_greedy_selection_amended c5Pair (1/2) hne
  refine ⟨hne, hc.1, hc.2.1, ?_⟩
  rw [c5Pair, mmr_optimization]
  norm_num [extractBest]
  rw [mmrLoop]
  norm_num [extractBest]
  rw [mmrLoop]

/-- Helper: the optimizer's own similarity gives 0.8 for the same-artist pair
`cexTrackB`/`cexTrackA`. -/
theorem div_sim_B_A : calculate_similarity cexTrackB cexTrackA = 0.8 := by
  rw [calculate_similarity]
  norm_num [cexTrackB, cexTrackA]

/-- Helper: the optimizer's own similarity gives 0 for the
orthogonal-featured pair `cexTrackC`/`cexTrackA`. -/
theorem div_sim_C_A : calculate_similarity cexTrackC cexTrackA = 0 := by
  rw [calculate_similarity]
  norm_num [cexTrackC, cexTrackA]
  rw [cosineSimilarity]
  have hdot : dotProduct6 (featureVector cexFeatC)
      (featureVector cexFeatA) = 0 := by
    rw [dotProduct6]
    simp only [Fin.sum_univ_succ, Fin.sum_univ_zero, Matrix.cons_val_succ,
      Matrix.cons_val_zero, featureVector, cexFeatA, cexFeatC]
    norm_num
  rw [hdot]
  simp

/-- Helper: explicit MMR ordering of the C1 counterexample candidates at
`lambda = 1/2`: A first, then C (its own-similarity to A is 0, B's is 0.8),
then B. -/
theorem cex_mmr_eval : mmr_optimization cexCandidates (1/2) =
    [(cexTrackA, 9/10), (cexTrackC, 4/5), (cexTrackB, 17/20)] := by
  rw [cexCandidates, mmr_optimization]
  norm_num [extractBest]
  rw [mmrLoop]
  norm_num [extractBest, maxSimTo, mmrScore, div_sim_B_A, div_sim_C_A]
  rw [mmrLoop]
  norm_num [extractBest]
  rw [mmrLoop]

/-- Helper: `apply_mmr` on the counterexample input returns the full MMR
ordering. -/
theorem cex_apply_mmr_eval : apply_mmr cexCandidates (1/2) 3 =
    [(cexTrackA, 9/10), (cexTrackC, 4/5), (cexTrackB, 17/20)] := by
  rw [apply_mmr, if_neg (by rw [cexCandidates]; simp), cex_mmr_eval]
  rw [show (min 3 (cexCandidates.length : ℤ)) = 3 by
    rw [cexCandidates]; rfl]
  rw [pySlice]
  norm_num

/-- Helper: engine similarity of `cexTrackC` against `cexTrackA` is 0.7. -/
theorem se_sim_C_A : SimilarityEngine.calculate_track_similarity cexTrackC
    cexTrackA = some (7/10) := by
  rw [SimilarityEngine.calculate_track_similarity]
  norm_num [cexTrackC, cexTrackA]
  rw [SimilarityEngine.calculate_audio_similarity, cosineSimilarity]
  have hdot : dotProduct6 (featureVector cexFeatC)
      (featureVector cexFeatA) = 0 := by
    rw [dotProduct6]
    simp only [Fin.sum_univ_succ, Fin.sum_univ_zero, Matrix.cons_val_succ,
      Matrix.cons_val_zero, featureVector, cexFeatA, cexFeatC]
    norm_num
  rw [hdot]
  have htag : SimilarityEngine.calculate_tag_similarity cexFeatC cexFeatA
      = 1 := by
    norm_num [SimilarityEngine.calculate_tag_similarity, get_all_tags,
      cexFeatA, cexFeatC, TagAnalyzer.weighted_tag_similarity,
      TagAnalyzer.get_tag_weights, List.enum, List.enumFrom,
      TagAnalyzer.dictInsert, TagAnalyzer.pfilter, TagAnalyzer.alookup]
  have hpop : SimilarityEngine.calculate_popularity_similarity cexFeatC
      cexFeatA = 1 := by
    norm_num [SimilarityEngine.calculate_popularity_similarity, cexFeatA,
      cexFeatC]
  rw [htag, hpop]
  norm_num

/-- Helper: engine similarity of `cexTrackB` against `cexTrackA` is 0.4
(orthogonal features, disjoint tags, equal popularity). -/
theorem se_sim_B_A : SimilarityEngine.calculate_track_similarity cexTrackB
    cexTrackA = some (2/5) := by
  rw [SimilarityEngine.calculate_track_similarity]
  norm_num [cexTrackB, cexTrackA]
  rw [SimilarityEngine.calculate_audio_similarity, cosineSimilarity]
  have hdot : dotProduct6 (featureVector cexFeatB)
      (featureVector cexFeatA) = 0 := by
    rw [dotProduct6]
    simp only [Fin.sum_univ_succ, Fin.sum_univ_zero, Matrix.cons_val_succ,
      Matrix.cons_val_zero, featureVector, cexFeatA, cexFeatB]
    norm_num
  rw [hdot]
  have htag : SimilarityEngine.calculate_tag_similarity cexFeatB cexFeatA
      = 0 := by
    norm_num [SimilarityEngine.calculate_tag_similarity, get_all_tags,
      cexFeatA, cexFeatB, TagAnalyzer.weighted_tag_similarity,
      TagAnalyzer.get_tag_weights, List.enum, List.enumFrom,
      TagAnalyzer.dictInsert, TagAnalyzer.pfilter, TagAnalyzer.alookup]
    exact fun h => absurd h (by decide)
  have hpop : SimilarityEngine.calculate_popularity_similarity cexFeatB
      cexFeatA = 1 := by
    norm_num [SimilarityEngine.calculate_popularity_similarity, cexFeatA,
      cexFeatB]
  rw [htag, hpop]
  norm_num

/-- C1 counterexample: on `cexCandidates` with `lambda = 1/2`, the code
selects `cexTrackC` second, yet among the still-remaining candidates
`cexTrackB` has a strictly greater value of the claim's objective
`lambda*relevance - (1-lambda)*maxSimilarityToSelected` computed with
SimilarityEngine's pairwise similarity — so `applyMMR` does not perform the
claimed SimilarityEngine-based greedy selection. -/
theorem C1_mmr_uses_own_similarity_counterexample :
    apply_mmr cexCandidates (1/2) 3 =
      [(cexTrackA, 9/10), (cexTrackC, 4/5), (cexTrackB, 17/20)] ∧
    (cexTrackB, 17/20) ∈ (apply_mmr cexCandidates (1/2) 3).drop 1 ∧
    mmrScore (1/2) (4/5)
        (specEngineMaxSim ((apply_mmr cexCandidates (1/2) 3).take 1)
          cexTrackC) <
      mmrScore (1/2) (17/20)
        (specEngineMaxSim ((apply_mmr cexCandidates (1/2) 3).take 1)
          cexTrackB) := by
  refine ⟨cex_apply_mmr_eval, ?_, ?_⟩
  · rw [cex_apply_mmr_eval]
    simp
  · rw [cex_apply_mmr_eval]
    have hC : specEngineMaxSim [(cexTrackA, (9:ℝ)/10)] cexTrackC = 7/10 := by
      rw [specEngineMaxSim]
      simp only [List.foldl, se_sim_C_A]
      norm_num
    have hB : specEngineMaxSim [(cexTrackA, (9:ℝ)/10)] cexTrackB = 2/5 := by
      rw [specEngineMaxSim]
      simp only [List.foldl, se_sim_B_A]
      norm_num
    show mmrScore (1/2) (4/5)
        (specEngineMaxSim [(cexTrackA, (9:ℝ)/10)] cexTrackC) <
      mmrScore (1/2) (17/20)
        (specEngineMaxSim [(cexTrackA, (9:ℝ)/10)] cexTrackB)
    rw [hC, hB, mmrScore, mmrScore]
    norm_num

/-- Helper: the optimizer's own similarity of two feature-less tracks by the
same artist is 0.8. -/
theorem div_sim_plain_same_artist (i a j : ℕ) :
    calculate_similarity (plainTrack i a) (plainTrack j a) = 0.8 := by
  rw [calculate_similarity]
  rw [if_pos (by rfl)]

/-- Helper: the optimizer's own similarity of two feature-less tracks by
different artists falls to the 0.1 default. -/
theorem div_sim_plain {i a j b : ℕ} (hab : a ≠ b) :
    calculate_similarity (plainTrack i a) (plainTrack j b) = 0.1 := by
  rw [calculate_similarity]
  rw [if_neg (show ¬ (plainTrack i a).artist_id = (plainTrack j b).artist_id
    from hab)]
  show genreFallbackSimilarity (plainTrack i a) (plainTrack j b) = 0.1
  rw [genreFallbackSimilarity, if_neg (by simp [trackGenres, plainTrack])]

/-- Helper: MMR ordering of `c5Pair` (any admissible lambda: evaluated at
7/10). -/
theorem c5Pair_mmr_eval : mmr_optimization c5Pair (7/10) =
    [(plainTrack 1 1, 9/10), (plainTrack 2 2, 4/5)] := by
  rw [c5Pair, mmr_optimization]
  norm_num [extractBest]
  rw [mmrLoop]
  norm_num [extractBest]
  rw [mmrLoop]

/-- Helper: with the out-of-range `lambda = 2` the MMR loop *rewards*
similarity: the same-artist candidate is picked second. -/
theorem c5_mmr_eval_lam2 : mmr_optimization c5Candidates 2 =
    [(plainTrack 1 1, 9/10), (plainTrack 2 1, 1/2), (plainTrack 3 2, 4/5)] := by
  rw [c5Candidates, mmr_optimization]
  norm_num [extractBest]
  rw [mmrLoop]
  norm_num [extractBest, maxSimTo, mmrScore, div_sim_plain_same_artist,
    div_sim_plain (show (2:ℕ) ≠ 1 by decide)]
  rw [mmrLoop]
  norm_num [extractBest]
  rw [mmrLoop]

/-- Helper: with the clamped `lambda = 1` the MMR loop ranks purely by
relevance: the dissimilar higher-relevance candidate is picked second. -/
theorem c5_mmr_eval_lam1 : mmr_optimization c5Candidates 1 =
    [(plainTrack 1 1, 9/10), (plainTrack 3 2, 4/5), (plainTrack 2 1, 1/2)] := by
  rw [c5Candidates, mmr_optimization]
  norm_num [extractBest]
  rw [mmrLoop]
  norm_num [extractBest, maxSimTo, mmrScore, div_sim_plain_same_artist,
    div_sim_plain (show (2:ℕ) ≠ 1 by decide)]
  rw [mmrLoop]
  norm_num [extractBest]
  rw [mmrLoop]

/-- C5 counterexample: `apply_mmr` does not clamp out-of-range parameters.
With `lambda = 2` it returns a different ordering than with the clamped
`lambda = 1` (so the out-of-range value is used as-is), and with
`num_results = -1` it returns one element of the two-candidate list (Python
negative slicing) instead of the empty list a clamp to 0 would give. -/
theorem C5_no_clamping_counterexample :
    apply_mmr c5Candidates 2 3 =
      [(plainTrack 1 1, 9/10), (plainTrack 2 1, 1/2),
        (plainTrack 3 2, 4/5)] ∧
    apply_mmr c5Candidates 1 3 =
      [(plainTrack 1 1, 9/10), (plainTrack 3 2, 4/5),
        (plainTrack 2 1, 1/2)] ∧
    apply_mmr c5Candidates 2 3 ≠ apply_mmr c5Candidates 1 3 ∧
    apply_mmr c5Pair (7/10) (-1) = [(plainTrack 1 1, 9/10)] ∧
    apply_mmr c5Pair (7/10) (-1) ≠ ([] : List (Track × ℝ)) := by
  have hlen3 : (min 3 (c5Candidates.length : ℤ)) = 3 := by
    rw [c5Candidates]; rfl
  have h2 : apply_mmr c5Candidates 2 3 =
      [(plainTrack 1 1, 9/10), (plainTrack 2 1, 1/2),
        (plainTrack 3 2, 4/5)] := by
    rw [apply_mmr, if_neg (by rw [c5Candidates]; simp), hlen3,
      c5_mmr_eval_lam2, pySlice]
    norm_num
  have h1 : apply_mmr c5Candidates 1 3 =
      [(plainTrack 1 1, 9/10), (plainTrack 3 2, 4/5),
        (plainTrack 2 1, 1/2)] := by
    rw [apply_mmr, if_neg (by rw [c5Candidates]; simp), hlen3,
      c5_mmr_eval_lam1, pySlice]
    norm_num
  have hneg : apply_mmr c5Pair (7/10) (-1) = [(plainTrack 1 1, 9/10)] := by
    rw [apply_mmr, if_neg (by rw [c5Pair]; simp),
      show (min (-1) (c5Pair.length : ℤ)) = -1 by rw [c5Pair]; rfl,
      c5Pair_mmr_eval, pySlice]
    norm_num
  refine ⟨h2, h1, ?_, hneg, ?_⟩
  · rw [h2, h1]
    simp [plainTrack]
  · rw [hneg]
    simp

/-- C5 (amended): `apply_mmr` never rejects a call: for every lambda
(clamped or not — it is passed through unchanged to the MMR scoring) and
every `num_results`, the result is a prefix of the full MMR ordering for that
very lambda, of length `min(num_results, n)` for nonnegative `num_results`
and `n - |num_results|` (Python negative slicing, not a clamp to 0) for
negative `num_results`, where `n` is the candidate count. -/
theorem C5_apply_mmr_unclamped_amended (cands : List (Track × ℝ)) (lam : ℝ)
    (num : ℤ) (hne : cands ≠ []) :
    apply_mmr cands lam num <+: mmr_optimization cands lam ∧
    (apply_mmr cands lam num).length =
      if 0 ≤ num then min num.toNat cands.length
      else cands.length - num.natAbs := by
  have hmlen : (mmr_optimization cands lam).length = cands.length :=
    (mmr_optimization_perm cands lam).length_eq
  constructor
  · rw [apply_mmr, if_neg hne, pySlice]
    split_ifs
    · exact List.take_prefix _ _
    · exact List.take_prefix _ _
  · rw [apply_mmr, if_neg hne, pySlice]
    split_ifs with hc1 hc2 hc2
    · rw [List.length_take, hmlen]
      omega
    · rw [List.length_take, hmlen]
      omega
    · rw [List.length_take, hmlen]
      omega
    · rw [List.length_take, hmlen]
      omega

/-- C5 witness: applying `C5_apply_mmr_unclamped_amended` at the concrete
two-candidate list with `num_results = -1`. -/
theorem C5_apply_mmr_unclamped_witness :
    c5Pair ≠ [] ∧
    apply_mmr c5Pair (7/10) (-1) <+: mmr_optimization c5Pair (7/10) ∧
    (apply_mmr c5Pair (7/10) (-1)).length = c5Pair.length - 1 := by
  have hne : c5Pair ≠ [] := by rw [c5Pair]; simp
  have h := C5_apply_mmr_unclamped_amended c5Pair (7/10) (-1) hne
  refine ⟨hne, h.1, ?_⟩
  have h2 := h.2
  rw [if_neg (by norm_num)] at h2
  simpa using h2

/-- C4 helper: the dot product is symmetric. -/
theorem dotProduct6_comm (v w : Fin 6 → ℝ) :
    dotProduct6 v w = dotProduct6 w v := by
  rw [dotProduct6, dotProduct6]
  exact Finset.sum_congr rfl (fun i _ => mul_comm _ _)

/-- C4 helper: cosine similarity is symmetric. -/
theorem cosineSimilarity_comm (v w : Fin 6 → ℝ) :
    cosineSimilarity v w = cosineSimilarity w v := by
  rw [cosineSimilarity, cosineSimilarity, dotProduct6_comm,
    mul_comm (norm6 v) (norm6 w)]
  exact if_congr or_comm rfl rfl

/-- C4 helper: the genre fallback similarity is symmetric. -/
theorem genreFallbackSimilarity_comm (t1 t2 : Track) :
    genreFallbackSimilarity t1 t2 = genreFallbackSimilarity t2 t1 := by
  rw [genreFallbackSimilarity, genreFallbackSimilarity,
    Finset.union_comm (trackGenres t2) (trackGenres t1),
    Finset.inter_comm (trackGenres t2) (trackGenres t1)]
  exact if_congr and_comm rfl rfl

/-- C4 helper: the optimizer's own similarity heuristic is symmetric in its
two tracks. -/
theorem calculate_similarity_comm (t1 t2 : Track) :
    calculate_similarity t1 t2 = calculate_similarity t2 t1 := by
  rw [calculate_similarity, calculate_similarity]
  by_cases hart : t1.artist_id = t2.artist_id
  · rw [if_pos hart, if_pos (show t2.artist_id = t1.artist_id
      from hart.symm)]
  · rw [if_neg hart, if_neg (show ¬ t2.artist_id = t1.artist_id
      from fun h => hart h.symm)]
    cases h1 : t1.simple_features <;> cases h2 : t2.simple_features
    · exact genreFallbackSimilarity_comm t1 t2
    · exact genreFallbackSimilarity_comm t1 t2
    · exact genreFallbackSimilarity_comm t1 t2
    · exact cosineSimilarity_comm _ _

/-- C4 helper: the sum of a symmetric function over all unordered pairs is
invariant under permutation of the list. -/
theorem pairsOf_map_sum_perm (f : Track → Track → ℝ)
    (hsym : ∀ a b, f a b = f b a) :
    ∀ {l l' : List Track}, l.Perm l' →
    ((pairsOf l).map (fun p => f p.1 p.2)).sum =
    ((pairsOf l').map (fun p => f p.1 p.2)).sum := by
  intro l l' hp
  induction hp with
  | nil => rfl
  | cons x hp ih =>
      simp only [pairsOf, List.map_append, List.sum_append]
      rw [ih]
      congr 1
      have := (hp.map (fun y => f x y)).sum_eq
      simpa [List.map_map, Function.comp] using this
  | swap x y l =>
      simp only [pairsOf, List.map_append, List.sum_append, List.map_cons,
        List.sum_cons, List.map_map, Function.comp]
      rw [hsym y x]
      ring
  | trans h1 h2 ih1 ih2 => rw [ih1, ih2]

/-- C4 helper: the number of unordered pairs is invariant under
permutation. -/
theorem pairsOf_length_perm : ∀ {l l' : List Track}, l.Perm l' →
    (pairsOf l).length = (pairsOf l').length := by
  intro l l' hp
  induction hp with
  | nil => rfl
  | cons x hp ih => simp [pairsOf, hp.length_eq, ih]
  | swap x y l => simp [pairsOf]
  | trans h1 h2 ih1 ih2 => rw [ih1, ih2]

/-- C4 helper: intra-list diversity is invariant under permutation of the
track list (the pairwise similarity is symmetric). -/
theorem intra_list_diversity_perm {l l' : List Track} (hp : l.Perm l') :
    calculate_intra_list_diversity l = calculate_intra_list_diversity l' := by
  rw [calculate_intra_list_diversity, calculate_intra_list_diversity,
    hp.length_eq]
  split_ifs with h
  · rfl
  · rw [pairsOf_map_sum_perm (fun a b => 1 - calculate_similarity a b)
      (fun a b => by simp only []; rw [calculate_similarity_comm]) hp,
      pairsOf_length_perm hp]

/-- C4 helper: every rerank iterate is a permutation of the initial list. -/
theorem mmrIterate_perm (recs : List (Track × ℝ)) :
    ∀ k, (mmrIterate recs k).Perm recs
  | 0 => List.Perm.refl _
  | k + 1 => (mmr_optimization_perm _ _).trans (mmrIterate_perm recs k)

/-- C4 helper: every rerank iterate has the same intra-list diversity as the
initial list (MMR only permutes, and the similarity is symmetric). -/
theorem ild_mmrIterate (recs : List (Track × ℝ)) (k : ℕ) :
    calculate_intra_list_diversity ((mmrIterate recs k).map Prod.fst) =
    calculate_intra_list_diversity (recs.map Prod.fst) :=
  intra_list_diversity_perm ((mmrIterate_perm recs k).map Prod.fst)

/-- C4 helper: full characterization of the rerank loop in terms of the
iterate sequence. -/
theorem rerankLoop_spec (recs : List (Track × ℝ)) (target : ℝ) :
    ∀ (fuel i : ℕ), ∃ k, k ≤ fuel ∧
      rerankLoop target (mmrIterate recs i) i fuel = mmrIterate recs (i + k) ∧
      (∀ j, i ≤ j → j < i + k →
        calculate_intra_list_diversity ((mmrIterate recs j).map Prod.fst) <
          target) ∧
      (k < fuel → target ≤
        calculate_intra_list_diversity
          ((mmrIterate recs (i + k)).map Prod.fst)) := by
  intro fuel
  induction fuel with
  | zero =>
      intro i
      refine ⟨0, le_rfl, ?_, ?_, ?_⟩
      · rw [rerankLoop, Nat.add_zero]
      · intro j h1 h2
        omega
      · intro h
        exact absurd h (Nat.not_lt_zero 0)
  | succ fuel ih =>
      intro i
      by_cases h : target ≤
          calculate_intra_list_diversity ((mmrIterate recs i).map Prod.fst)
      · refine ⟨0, Nat.zero_le _, ?_, ?_, ?_⟩
        · rw [rerankLoop, if_pos h, Nat.add_zero]
        · intro j h1 h2
          omega
        · intro _
          rw [Nat.add_zero]
          exact h
      · obtain ⟨k', hk'le, heq, hlt, hstop⟩ := ih (i + 1)
        refine ⟨k' + 1, Nat.succ_le_succ hk'le, ?_, ?_, ?_⟩
        · rw [rerankLoop, if_neg h]
          have hnext : mmr_optimization (mmrIterate recs i)
              (max (1/10) (1 - (i + 1 : ℕ) * (1/10))) =
              mmrIterate recs (i + 1) := rfl
          rw [hnext, heq]
          congr 1
          omega
        · intro j h1 h2
          rcases Nat.eq_or_lt_of_le h1 with rfl | h1'
          · exact not_le.1 h
          · exact hlt j h1' (by omega)
        · intro hklt
          rw [show i + (k' + 1) = (i + 1) + k' by omega]
          exact hstop (by omega)

/-- C4: `rerank_for_diversity` walks the iterate sequence
`mmrIterate recs k` (the k-th MMR application using
`lambda = max(0.1, 1 - k*0.1)`, k counted from 1), stopping at the first
iterate whose intra-list diversity reaches the target or when
`max_iterations` is exhausted; the returned list's intra-list diversity is
maximal among all iterates visited (every MMR pass only permutes the list, so
all iterates in fact have equal diversity). -/
theorem C4_rerank_for_diversity_contract (recs : List (Track × ℝ))
    (target : ℝ) (max_iterations : ℕ) :
    ∃ k, k ≤ max_iterations ∧
      rerank_for_diversity recs target max_iterations = mmrIterate recs k ∧
      (∀ j < k, calculate_intra_list_diversity
        ((mmrIterate recs j).map Prod.fst) < target) ∧
      (k < max_iterations → target ≤ calculate_intra_list_diversity
        ((mmrIterate recs k).map Prod.fst)) ∧
      (∀ j ≤ k, calculate_intra_list_diversity
          ((mmrIterate recs j).map Prod.fst) ≤
        calculate_intra_list_diversity
          ((rerank_for_diversity recs target max_iterations).map
            Prod.fst)) := by
  obtain ⟨k, hk, heq, hlt, hstop⟩ := rerankLoop_spec recs target max_iterations 0
  rw [Nat.zero_add] at heq hstop
  have hmain : rerank_for_diversity recs target max_iterations =
      mmrIterate recs k := by
    rw [rerank_for_diversity]
    exact heq
  refine ⟨k, hk, hmain, ?_, hstop, ?_⟩
  · intro j hj
    exact hlt j (Nat.zero_le _) (by omega)
  · intro j hj
    rw [hmain, ild_mmrIterate, ild_mmrIterate]

/-- Helper: intra-list diversity of the two-track fixture list is 0.9. -/
theorem c5Pair_ild_eval :
    calculate_intra_list_diversity (c5Pair.map Prod.fst) = 9/10 := by
  rw [c5Pair]
  simp only [List.map_cons, List.map_nil]
  rw [calculate_intra_list_diversity, if_neg (by norm_num)]
  simp only [pairsOf, List.map_cons, List.map_nil, List.map_append,
    List.append_nil, List.sum_cons, List.sum_nil, List.length_append,
    List.length_cons, List.length_nil, List.length_map]
  rw [div_sim_plain (show (1:ℕ) ≠ 2 by decide)]
  norm_num

/-- C4 witness: a concrete run of `rerank_for_diversity` — the fixture list
already meets the target, so the loop breaks immediately and returns it —
together with the application of `C4_rerank_for_diversity_contract` at the
same input. -/
theorem C4_rerank_for_diversity_witness :
    rerank_for_diversity c5Pair (1/2) 3 = c5Pair ∧
    (∃ k, k ≤ 3 ∧
      rerank_for_diversity c5Pair (1/2) 3 = mmrIterate c5Pair k ∧
      (∀ j < k, calculate_intra_list_diversity
        ((mmrIterate c5Pair j).map Prod.fst) < 1/2) ∧
      (k < 3 → (1/2 : ℝ) ≤ calculate_intra_list_diversity
        ((mmrIterate c5Pair k).map Prod.fst)) ∧
      (∀ j ≤ k, calculate_intra_list_diversity
          ((mmrIterate c5Pair j).map Prod.fst) ≤
        calculate_intra_list_diversity
          ((rerank_for_diversity c5Pair (1/2) 3).map Prod.fst))) := by
  constructor
  · rw [rerank_for_diversity, show (3:ℕ) = 2 + 1 from rfl, rerankLoop,
      if_pos (by rw [c5Pair_ild_eval]; norm_num)]
  · exact C4_rerank_for_diversity_contract c5Pair (1/2) 3

/-- C8 helper: each feature-vector component of a validator-conforming
feature record lies in [0,1]. -/
theorem featureVector_mem_Icc {f : SimpleTrackFeatures}
    (h : FeaturesInRange f) :
    ∀ i, 0 ≤ featureVector f i ∧ featureVector f i ≤ 1 := by
  obtain ⟨h1, h2, h3, h4, h5, h6, h7, h8, h9, h10, h11, h12⟩ := h
  intro i
  fin_cases i <;> constructor <;> norm_num [featureVector] <;>
    assumption_mod_cast

/-- C8 helper: cosine similarity never exceeds 1 (Cauchy-Schwarz). -/
theorem cosineSimilarity_le_one (v w : Fin 6 → ℝ) :
    cosineSimilarity v w ≤ 1 := by
  rw [cosineSimilarity]
  split_ifs with h
  · norm_num
  · push_neg at h
    have hv : 0 < norm6 v := lt_of_le_of_ne (Real.sqrt_nonneg _) (Ne.symm h.1)
    have hw : 0 < norm6 w := lt_of_le_of_ne (Real.sqrt_nonneg _) (Ne.symm h.2)
    rw [div_le_one (mul_pos hv hw)]
    have hsq : ∀ u : Fin 6 → ℝ, (∑ i, u i * u i) = ∑ i, (u i) ^ 2 := by
      intro u
      exact Finset.sum_congr rfl (fun i _ => (sq (u i)).symm)
    have hcs := Finset.sum_mul_sq_le_sq_mul_sq Finset.univ v w
    have habs : |dotProduct6 v w| ≤ norm6 v * norm6 w := by
      rw [← Real.sqrt_sq_eq_abs, norm6, norm6, hsq v, hsq w,
        ← Real.sqrt_mul (by positivity)]
      exact Real.sqrt_le_sqrt (by rw [dotProduct6, sq]; simpa [sq] using hcs)
    exact le_trans (le_abs_self _) habs

/-- C8 helper: cosine similarity of componentwise-nonnegative vectors is
nonnegative. -/
theorem cosineSimilarity_nonneg (v w : Fin 6 → ℝ) (hv : ∀ i, 0 ≤ v i)
    (hw : ∀ i, 0 ≤ w i) : 0 ≤ cosineSimilarity v w := by
  rw [cosineSimilarity]
  split_ifs with h
  · exact le_rfl
  · refine div_nonneg ?_ (mul_nonneg (Real.sqrt_nonneg _) (Real.sqrt_nonneg _))
    rw [dotProduct6]
    exact Finset.sum_nonneg (fun i _ => mul_nonneg (hv i) (hw i))

/-- C8 helper: the genre fallback similarity lies in [0,1]. -/
theorem genreFallbackSimilarity_mem_Icc (t1 t2 : Track) :
    0 ≤ genreFallbackSimilarity t1 t2 ∧ genreFallbackSimilarity t1 t2 ≤ 1 := by
  rw [genreFallbackSimilarity]
  split_ifs with h1 h2
  · constructor
    · positivity
    · rw [div_le_one (by exact_mod_cast h2)]
      exact_mod_cast Finset.card_le_card
        (Finset.Subset.trans Finset.inter_subset_left
          Finset.subset_union_left)
  · norm_num
  · norm_num

/-- C8 helper: the optimizer's own similarity lies in [0,1] for tracks whose
feature records, when present, satisfy the data-model validators. -/
theorem calculate_similarity_mem_Icc (t1 t2 : Track)
    (h1 : ∀ f, t1.simple_features = some f → FeaturesInRange f)
    (h2 : ∀ f, t2.simple_features = some f → FeaturesInRange f) :
    0 ≤ calculate_similarity t1 t2 ∧ calculate_similarity t1 t2 ≤ 1 := by
  rw [calculate_similarity]
  split_ifs with hart
  · norm_num
  · cases hf1 : t1.simple_features <;> cases hf2 : t2.simple_features
    · exact genreFallbackSimilarity_mem_Icc t1 t2
    · exact genreFallbackSimilarity_mem_Icc t1 t2
    · exact genreFallbackSimilarity_mem_Icc t1 t2
    · rename_i f1 f2
      refine ⟨cosineSimilarity_nonneg _ _ ?_ ?_, cosineSimilarity_le_one _ _⟩
      · exact fun i => (featureVector_mem_Icc (h1 f1 hf1) i).1
      · exact fun i => (featureVector_mem_Icc (h2 f2 hf2) i).1

/-- C8 helper: both components of any unordered pair come from the list. -/
theorem pairsOf_mem {l : List Track} {p : Track × Track}
    (hp : p ∈ pairsOf l) : p.1 ∈ l ∧ p.2 ∈ l := by
  induction l with
  | nil => cases hp
  | cons x xs ih =>
      rw [pairsOf, List.mem_append] at hp
      rcases hp with hp | hp
      · obtain ⟨y, hy, rfl⟩ := List.mem_map.1 hp
        exact ⟨List.mem_cons_self _ _, List.mem_cons_of_mem _ hy⟩
      · obtain ⟨ha, hb⟩ := ih hp
        exact ⟨List.mem_cons_of_mem _ ha, List.mem_cons_of_mem _ hb⟩

/-- C8 helper: a list of length at least 2 has at least one unordered
pair. -/
theorem pairsOf_ne_nil {l : List Track} (h : 2 ≤ l.length) :
    pairsOf l ≠ [] := by
  match l, h with
  | a :: b :: rest, _ =>
      simp [pairsOf]

/-- C8 helper: the intra-list diversity lies in [0,1] under the data-model
validators, and is 0 for lists shorter than 2. -/
theorem intra_list_diversity_mem_Icc (recs : List Track)
    (hval : ∀ t ∈ recs, ∀ f, t.simple_features = some f → FeaturesInRange f) :
    0 ≤ calculate_intra_list_diversity recs ∧
    calculate_intra_list_diversity recs ≤ 1 ∧
    (recs.length < 2 → calculate_intra_list_diversity recs = 0) := by
  rw [calculate_intra_list_diversity]
  split_ifs with h
  · exact ⟨le_rfl, by norm_num, fun _ => rfl⟩
  · have hterm : ∀ x ∈ (pairsOf recs).map
        (fun p => 1 - calculate_similarity p.1 p.2), 0 ≤ x ∧ x ≤ 1 := by
      intro x hx
      obtain ⟨p, hp, rfl⟩ := List.mem_map.1 hx
      obtain ⟨hp1, hp2⟩ := pairsOf_mem hp
      obtain ⟨hs0, hs1⟩ := calculate_similarity_mem_Icc p.1 p.2
        (hval p.1 hp1) (hval p.2 hp2)
      constructor <;> linarith
    have hlenpos : 0 < ((pairsOf recs).length : ℝ) := by
      have := pairsOf_ne_nil (by omega : 2 ≤ recs.length)
      have : 0 < (pairsOf recs).length := List.length_pos.2 this
      exact_mod_cast this
    have hsum0 : 0 ≤ ((pairsOf recs).map
        (fun p => 1 - calculate_similarity p.1 p.2)).sum :=
      List.sum_nonneg (fun x hx => (hterm x hx).1)
    have hsum1 : ((pairsOf recs).map
        (fun p => 1 - calculate_similarity p.1 p.2)).sum ≤
        ((pairsOf recs).length : ℝ) := by
      have := List.sum_le_card_nsmul ((pairsOf recs).map
        (fun p => 1 - calculate_similarity p.1 p.2)) 1
        (fun x hx => (hterm x hx).2)
      simpa [List.length_map, nsmul_eq_mul] using this
    refine ⟨div_nonneg hsum0 hlenpos.le, ?_, fun hc => absurd hc h⟩
    rw [div_le_one hlenpos]
    exact hsum1

/-- C8 helper: the population standard deviation of a nonempty list of
values in [0,1] lies in [0,1]. -/
theorem listStd_mem_Icc {xs : List ℝ} (hne : xs ≠ [])
    (h : ∀ x ∈ xs, 0 ≤ x ∧ x ≤ 1) : 0 ≤ listStd xs ∧ listStd xs ≤ 1 := by
  have hlenpos : 0 < (xs.length : ℝ) := by
    have : 0 < xs.length := List.length_pos.2 hne
    exact_mod_cast this
  have hmean0 : 0 ≤ listMean xs :=
    div_nonneg (List.sum_nonneg (fun x hx => (h x hx).1)) hlenpos.le
  have hmean1 : listMean xs ≤ 1 := by
    rw [listMean, div_le_one hlenpos]
    have := List.sum_le_card_nsmul xs 1 (fun x hx => (h x hx).2)
    simpa [nsmul_eq_mul] using this
  refine ⟨Real.sqrt_nonneg _, ?_⟩
  refine le_trans (Real.sqrt_le_sqrt ?_) (le_of_eq Real.sqrt_one)
  rw [div_le_one hlenpos]
  have hterm : ∀ y ∈ xs.map (fun x => (x - listMean xs) ^ 2), y ≤ 1 := by
    intro y hy
    obtain ⟨x, hx, rfl⟩ := List.mem_map.1 hy
    obtain ⟨hx0, hx1⟩ := h x hx
    have habs : |x - listMean xs| ≤ 1 := abs_le.2 ⟨by linarith, by linarith⟩
    calc (x - listMean xs) ^ 2 = |x - listMean xs| ^ 2 := (sq_abs _).symm
      _ ≤ 1 := by
          rw [sq]
          exact mul_le_one₀ habs (abs_nonneg _) habs
  have := List.sum_le_card_nsmul (xs.map (fun x => (x - listMean xs) ^ 2)) 1
    hterm
  simpa [List.length_map, nsmul_eq_mul] using this

/-- C8 helper: the feature diversity lies in [0,1] under the data-model
validators. -/
theorem calculate_feature_diversity_mem_Icc (recs : List Track)
    (hval : ∀ t ∈ recs, ∀ f, t.simple_features = some f → FeaturesInRange f) :
    0 ≤ calculate_feature_diversity recs ∧
    calculate_feature_diversity recs ≤ 1 := by
  rw [calculate_feature_diversity]
  split_ifs with h1 h2
  · norm_num
  · norm_num
  · have hfl : ∀ f ∈ recs.filterMap Track.simple_features,
        FeaturesInRange f := by
      intro f hf
      obtain ⟨t, ht, hsome⟩ := List.mem_filterMap.1 hf
      exact hval t ht f hsome
    have hflne : recs.filterMap Track.simple_features ≠ [] := by
      intro hcon
      rw [hcon] at h2
      simp at h2
    have hstd : ∀ i : Fin 6,
        0 ≤ listStd ((recs.filterMap Track.simple_features).map
          (fun f => featureVector f i)) ∧
        listStd ((recs.filterMap Track.simple_features).map
          (fun f => featureVector f i)) ≤ 1 := by
      intro i
      refine listStd_mem_Icc (by simpa using hflne) ?_
      intro x hx
      obtain ⟨f, hf, rfl⟩ := List.mem_map.1 hx
      exact featureVector_mem_Icc (hfl f hf) i
    constructor
    · refine div_nonneg (Finset.sum_nonneg (fun i _ => (hstd i).1))
        (by norm_num)
    · rw [div_le_one (by norm_num : (0:ℝ) < 6)]
      have := Finset.sum_le_card_nsmul Finset.univ
        (fun i : Fin 6 => listStd ((recs.filterMap Track.simple_features).map
          (fun f => featureVector f i))) 1 (fun i _ => (hstd i).2)
      simpa [nsmul_eq_mul] using this

/-- C8 helper: the genre coverage lies in [0,1]. -/
theorem calculate_genre_coverage_mem_Icc (recs : List Track) :
    0 ≤ calculate_genre_coverage recs ∧ calculate_genre_coverage recs ≤ 1 := by
  rw [calculate_genre_coverage]
  constructor
  · exact le_min (by norm_num) (by positivity)
  · exact min_le_left _ _

/-- C8 helper: the artist diversity lies in [0,1]. -/
theorem calculate_artist_diversity_mem_Icc (recs : List Track) :
    0 ≤ calculate_artist_diversity recs ∧
    calculate_artist_diversity recs ≤ 1 := by
  rw [calculate_artist_diversity]
  split_ifs with h
  · norm_num
  · have hlenpos : 0 < (recs.length : ℚ) := by
      have : 0 < recs.length := List.length_pos.2 h
      exact_mod_cast this
    constructor
    · positivity
    · rw [div_le_one hlenpos]
      have hsub : (recs.map Track.artist_id).dedup.length ≤
          (recs.map Track.artist_id).length :=
        (List.dedup_sublist _).length_le
      rw [List.length_map] at hsub
      exact_mod_cast hsub

/-- C8: all four diversity metrics lie within [0,1] (given the data-model
invariant that stored feature values are in [0,1]), and the intra-list
diversity is 0 for every list of fewer than two tracks. -/
theorem C8_diversity_metrics_bounds (recs : List Track)
    (hval : ∀ t ∈ recs, ∀ f, t.simple_features = some f → FeaturesInRange f) :
    (0 ≤ (calculate_diversity_metrics recs).intra_list_diversity ∧
      (calculate_diversity_metrics recs).intra_list_diversity ≤ 1) ∧
    (0 ≤ (calculate_diversity_metrics recs).genre_coverage ∧
      (calculate_diversity_metrics recs).genre_coverage ≤ 1) ∧
    (0 ≤ (calculate_diversity_metrics recs).artist_diversity ∧
      (calculate_diversity_metrics recs).artist_diversity ≤ 1) ∧
    (0 ≤ (calculate_diversity_metrics recs).feature_diversity ∧
      (calculate_diversity_metrics recs).feature_diversity ≤ 1) ∧
    (recs.length < 2 →
      (calculate_diversity_metrics recs).intra_list_diversity = 0) := by
  rw [calculate_diversity_metrics]
  split_ifs with h
  · refine ⟨⟨le_rfl, by norm_num⟩, ⟨le_rfl, by norm_num⟩,
      ⟨le_rfl, by norm_num⟩, ⟨le_rfl, by norm_num⟩, fun _ => rfl⟩
  · obtain ⟨hild0, hild1, hildz⟩ := intra_list_diversity_mem_Icc recs hval
    obtain ⟨hg0, hg1⟩ := calculate_genre_coverage_mem_Icc recs
    obtain ⟨ha0, ha1⟩ := calculate_artist_diversity_mem_Icc recs
    obtain ⟨hf0, hf1⟩ := calculate_feature_diversity_mem_Icc recs hval
    refine ⟨⟨hild0, hild1⟩, ⟨?_, ?_⟩, ⟨?_, ?_⟩, ⟨hf0, hf1⟩, hildz⟩
    · show (0:ℝ) ≤ ((calculate_genre_coverage recs : ℚ) : ℝ)
      exact_mod_cast hg0
    · show ((calculate_genre_coverage recs : ℚ) : ℝ) ≤ 1
      exact_mod_cast hg1
    · show (0:ℝ) ≤ ((calculate_artist_diversity recs : ℚ) : ℝ)
      exact_mod_cast ha0
    · show ((calculate_artist_diversity recs : ℚ) : ℝ) ≤ 1
      exact_mod_cast ha1

/-- C8 witness: the metrics of the concrete two-track feature-less list
evaluate to (0.9, 0, 1, 0), and `C8_diversity_metrics_bounds` applies to
it (the validator hypothesis is vacuous: neither track has features). -/
theorem C8_diversity_metrics_witness :
    (calculate_diversity_metrics
      [plainTrack 1 1, plainTrack 2 2]).intra_list_diversity = 9/10 ∧
    (calculate_diversity_metrics
      [plainTrack 1 1, plainTrack 2 2]).genre_coverage = 0 ∧
    (calculate_diversity_metrics
      [plainTrack 1 1, plainTrack 2 2]).artist_diversity = 1 ∧
    (calculate_diversity_metrics
      [plainTrack 1 1, plainTrack 2 2]).feature_diversity = 0 ∧
    (0 ≤ (calculate_diversity_metrics
        [plainTrack 1 1, plainTrack 2 2]).intra_list_diversity ∧
      (calculate_diversity_metrics
        [plainTrack 1 1, plainTrack 2 2]).intra_list_diversity ≤ 1) := by
  have hval : ∀ t ∈ [plainTrack 1 1, plainTrack 2 2], ∀ f,
      t.simple_features = some f → FeaturesInRange f := by
    intro t ht f hf
    rcases List.mem_cons.1 ht with rfl | ht
    · cases hf
    · rcases List.mem_cons.1 ht with rfl | ht
      · cases hf
      · cases ht
  have hmet : calculate_diversity_metrics [plainTrack 1 1, plainTrack 2 2] =
      ⟨9/10, calculate_genre_coverage [plainTrack 1 1, plainTrack 2 2],
        calculate_artist_diversity [plainTrack 1 1, plainTrack 2 2],
        calculate_feature_diversity [plainTrack 1 1, plainTrack 2 2]⟩ := by
    rw [calculate_diversity_metrics, if_neg (by simp)]
    have hild : calculate_intra_list_diversity
        [plainTrack 1 1, plainTrack 2 2] = 9/10 := by
      have := c5Pair_ild_eval
      rw [c5Pair] at this
      simpa using this
    rw [hild]
  refine ⟨by rw [hmet], ?_, ?_, ?_, ?_⟩
  · rw [hmet]
    show (calculate_genre_coverage [plainTrack 1 1, plainTrack 2 2] : ℝ) = 0
    norm_num [calculate_genre_coverage, trackGenres, plainTrack]
  · rw [hmet]
    show (calculate_artist_diversity [plainTrack 1 1, plainTrack 2 2] : ℝ) = 1
    have hart : calculate_artist_diversity [plainTrack 1 1, plainTrack 2 2]
        = 1 := by
      rw [calculate_artist_diversity, if_neg (by simp)]
      norm_num [plainTrack, List.dedup]
    rw [hart]
    norm_num
  · rw [hmet]
    show calculate_feature_diversity [plainTrack 1 1, plainTrack 2 2] = 0
    rw [calculate_feature_diversity]
    norm_num [plainTrack]
  · exact (C8_diversity_metrics_bounds [plainTrack 1 1, plainTrack 2 2]
      hval).1

end DiversityOptimizer

end MusicRec
